import Mathlib

/-!
Verification development for AutoRoutePy's input-preparation module
(src/AutoRoutePy/prepare/prepare.py).

The Python module mutates a "Stream Index Table": a positional text table
with one row per rasterized stream cell, columns
DEM_1D_Index, Row, Col, StreamID, StreamDirection [, Slope [, Flow]].
Each append-style operation reads the whole table, computes one value per
stream id (slope from a shapefile, peak flow from a RAPID dataset, an
ensemble statistic, or a return-period lookup), writes a fresh table to a
sibling temporary file and then replaces the original file.

Rows are modelled as lists of rationals (the numeric content of the cells);
stream ids are integers obtained from column 3, as in
numpy.array([row[3] for row in table], dtype=int32).
-/

namespace AutoRoute

/-- Truncation toward zero, modelling Python int(float(x)) and the int32
cast of a numeric field (overflow is irrelevant at the id magnitudes the
claims involve, so no mod-2^32 reduction is applied). -/
def ratTrunc (q : ℚ) : Int :=
  if 0 ≤ q then ⌊q⌋ else ⌈q⌉

/-- A Stream Index Table row: the numeric cells of one text line. -/
abbrev SIRow := List ℚ

/-- Stream id of a row: column 3 read as an integer
(stream_id_list = np.array([row[3] for row in stream_info_table], dtype=np.int32)). -/
def sidOf (r : SIRow) : Int := ratTrunc (r.getD 3 0)

/-- The table's stream-id column. -/
def sidColumn (t : List SIRow) : List Int := t.map sidOf

/-- np.unique: the sorted list of distinct values. -/
def npUnique (l : List Int) : List Int :=
  List.insertionSort (· ≤ ·) l.dedup

/-- Rows of the table whose stream id equals id
(raster_index_list = np.where(stream_id_list == streamid)[0], in index order). -/
def matchRows (t : List SIRow) (id : Int) : List SIRow :=
  t.filter (fun r => sidOf r == id)

/-- row[:6] + [v]: the first six cells with a flow value appended
(used by all flow-appending operations). -/
def appendFlow6 (r : SIRow) (v : ℚ) : SIRow := r.take 6 ++ [v]

/-- row[:5] + [slope] + row[6:]: the slope-append row rewrite. -/
def appendSlope5 (r : SIRow) (v : ℚ) : SIRow := r.take 5 ++ [v] ++ r.drop 6

/-- The appended flow value of an output row (its last cell). -/
def flowOf (r : SIRow) : Option ℚ := r.getLast?

/-- The slope cell (position 5) of an output row. -/
def slopeOf (r : SIRow) : ℚ := r.getD 5 0

/-- Successive step-sized slices of a list.  This is the loop
for list_index_start in range(0, n, step) over slices
l[list_index_start : min(list_index_start + step, n)]: each iteration
consumes step >= 1 elements, so the recursion, fuelled by the list length
(an upper bound on the iteration count), stops exactly when the remaining
slice is empty, i.e. after ceil(n / step) iterations, producing the same
slices as the Python loop. -/
def chunkList (step : Nat) : Nat → List α → List (List α)
  | 0, _ => []
  | _, [] => []
  | Nat.succ fuel, l => l.take step :: chunkList step fuel (l.drop step)

/-- Chunking as executed: range(0, n, step) raises ValueError when step is 0. -/
def pyChunks (step : Nat) (l : List α) : Except String (List (List α)) :=
  if step = 0 then .error "range() arg 3 must not be zero"
  else .ok (chunkList step l.length l)

/-- max_chunk_size = 8*365*5*4000: 5 years of 3-hourly data for 4000 ids. -/
def maxChunkSize : Nat := 8 * 365 * 5 * 4000

/-- step_size = min(max_chunk_size / time_length, streamid_list_length)
(integer division, as in the Python 2 semantics the module was written for). -/
def stepSize (timeLength n : Nat) : Nat :=
  min (maxChunkSize / timeLength) n

/-- Python extended slice s[start:stop:step] for step > 0: the elements at
indices start, start+step, ... below min(stop, len(s)). -/
def pySliceStride (s : List ℚ) (start stop step : Nat) : List ℚ :=
  (List.range' start ((min stop s.length - start + step - 1) / step) step).map
    (fun i => s.getD i 0)

/-- Resampling of the control member (ensemble 52) series before it is stored
in the first-half buffer (append_streamflow_from_ecmwf_rapid_output):
if first_half_size == 65 the series is spliced as s[:90:3] + s[90:];
elif the file's size_time (= series length) is 125 it is spliced as
s[:90:6] + s[90:109:2] + s[109:]; else it is taken unmodified (s[:]). -/
def spliceControl (firstHalfSize : Nat) (s : List ℚ) : List ℚ :=
  if firstHalfSize = 65 then pySliceStride s 0 90 3 ++ s.drop 90
  else if s.length = 125 then
    pySliceStride s 0 90 6 ++ pySliceStride s 90 109 2 ++ s.drop 109
  else s

/-- first_half_size as a function of the first prediction file's size_time:
40 by default, 41 when size_time is 41 or 61, 65 when size_time is 85 or 125. -/
def firstHalfSizeOf (sizeTime : Nat) : Nat :=
  if sizeTime = 41 ∨ sizeTime = 61 then 41
  else if sizeTime = 85 ∨ sizeTime = 125 then 65
  else 40

/-- A discharge dataset: one time series per reach id (RAPID Qout file,
queried through get_subset_riverid_index_list / get_qout_index). -/
abbrev Dataset := List (Int × List ℚ)

/-- The series stored for a reach id, if the id is present in the dataset. -/
def dsFind (ds : Dataset) (id : Int) : Option (List ℚ) :=
  (ds.find? (fun p => p.1 == id)).map (·.2)

/-- Python max() over a series: raises on an empty sequence. -/
def peakMax (s : List ℚ) : Except String ℚ :=
  match s with
  | [] => .error "max() arg is an empty sequence"
  | x :: xs => .ok (xs.foldl max x)

/-- The value the single-run operation assigns to a stream id: the peak of
its series when the id is in the dataset, 0 when it is missing. -/
def peakVal (ds : Dataset) (id : Int) : Except String ℚ :=
  match dsFind ds id with
  | none => .ok 0
  | some s => peakMax s

/-- The flow value the single-run operation ends up writing for a stream id
when it completes: the fold of Python max() over the id's series when the id
is present in the dataset, and 0 when it is missing.  (The empty-series case
is mapped to 0 here; on it the operation itself aborts instead of writing,
which peakVal captures.)  Helper for stating theorems about the completed
operation; on the non-aborting inputs it is the ok-value of peakVal. -/
def assignedPeak (ds : Dataset) (id : Int) : ℚ :=
  match dsFind ds id with
  | none => 0
  | some [] => 0
  | some (x :: xs) => xs.foldl max x

/-- Sequencing of fallible per-element computations, as a for loop that
propagates the first raised exception. -/
def exMapM (f : α → Except String β) : List α → Except String (List β)
  | [] => .ok []
  | a :: l =>
    match f a with
    | .error e => .error e
    | .ok b =>
      match exMapM f l with
      | .error e => .error e
      | .ok bs => .ok (b :: bs)

/-- One batch of the single-run peak-flow loop, reduced to the (id, value)
assignments it produces: get_subset_riverid_index_list splits the batch into
valid ids (present in the dataset, in batch order) and missing ids; each
valid id is assigned max() of its series, each missing id the value 0. -/
def batchAssign (ds : Dataset) (batch : List Int) : Except String (List (Int × ℚ)) :=
  match exMapM (fun id => (peakMax ((dsFind ds id).getD [])).map (fun p => (id, p)))
      (batch.filter (fun id => (dsFind ds id).isSome)) with
  | .error e => .error e
  | .ok vp => .ok (vp ++ (batch.filter (fun id => (dsFind ds id).isNone)).map (fun id => (id, (0 : ℚ))))

/-- All (id, value) assignments of the chunked single-run loop: the unique id
list is cut into step-sized batches and each batch is processed in order. -/
def chunkedAssign (ds : Dataset) (step : Nat) (ids : List Int) :
    Except String (List (Int × ℚ)) :=
  match pyChunks step ids with
  | .error e => .error e
  | .ok bs =>
    match exMapM (batchAssign ds) bs with
    | .error e => .error e
    | .ok ls => .ok ls.flatten

/-- The single-batch (unchunked) assignments over the whole id list. -/
def unchunkedAssign (ds : Dataset) (ids : List Int) : Except String (List (Int × ℚ)) :=
  batchAssign ds ids

/-- The value recorded for an id in an assignment list. -/
def lookupAssign (l : List (Int × ℚ)) (id : Int) : Option ℚ :=
  (l.find? (fun p => p.1 == id)).map (·.2)

/-- The output rows produced from a list of (id, value) assignments: for each
assignment, every table row with that stream id is written as row[:6] + [value]. -/
def rowsOfAssign (table : List SIRow) (l : List (Int × ℚ)) : List SIRow :=
  l.flatMap (fun p => (matchRows table p.1).map (fun r => appendFlow6 r p.2))

/-- append_streamflow_from_rapid_output, as the list of rows written to the
replacement table: after the non-empty check on the unique stream-id list
(raise IndexError when it is empty), the chunked loop writes, per batch,
the rows of each valid id with its peak and the rows of each missing id
with flow 0. -/
def rapidRows (ds : Dataset) (step : Nat) (table : List SIRow) :
    Except String (List SIRow) :=
  if (npUnique (sidColumn table)).length = 0 then
    .error "Invalid stream info file. No stream ID's found ..."
  else
    match chunkedAssign ds step (npUnique (sidColumn table)) with
    | .error e => .error e
    | .ok l => .ok (rowsOfAssign table l)

/-- A return-period static file: three statistic arrays aligned with an id
array.  (The source reads the id array from variable 'rivid' when present,
else 'COMID'; the choice of variable name carries no content here, so the id
array is modelled directly.) -/
structure RPSource where
  rp2 : List ℚ
  rp10 : List ℚ
  rp20 : List ℚ
  comids : List Int

/-- The statistic array selected by the return_period argument
(append_streamflow_from_return_period_file): "return_period_20",
"return_period_10", "return_period_2" each read their own variable,
"max_flow" reads return_period_2, anything else raises. -/
def selectRPData (name : String) (src : RPSource) : Except String (List ℚ) :=
  if name = "return_period_20" then .ok src.rp20
  else if name = "return_period_10" then .ok src.rp10
  else if name = "return_period_2" then .ok src.rp2
  else if name = "max_flow" then .ok src.rp2
  else .error "Invalid return period definition."

/-- The value the return-period lookup assigns to a stream id: the statistic
at the first position where the file's id array equals the id
(streamid_index = np.where(return_period_comids == streamid)[0][0]); any
IndexError (id absent, or the statistic array shorter than that position)
is caught and the value defaults to 0. -/
def rpValueOf (comids : List Int) (dat : List ℚ) (id : Int) : ℚ :=
  match comids.findIdx? (fun c => c == id) with
  | some i => dat.getD i 0
  | none => 0

/-- The shape of the return-period and ensemble appending loops: for each
unique stream id in sorted order, every table row carrying that id is
rewritten as row[:6] + [value of the id].  (The single-run loop is different:
it writes each batch's valid ids before its missing ids, and is modelled by
batchAssign / rowsOfAssign above.) -/
def flowBroadcast (table : List SIRow) (valueOf : Int → ℚ) : List SIRow :=
  (npUnique (sidColumn table)).flatMap
    (fun id => (matchRows table id).map (fun r => appendFlow6 r (valueOf id)))

/-- The rows written by append_streamflow_from_return_period_file once the
statistic array dat has been selected. -/
def rpRows (comids : List Int) (dat : List ℚ) (table : List SIRow) : List SIRow :=
  flowBroadcast table (rpValueOf comids dat)

/-- The whole return-period operation: select the statistic array by name,
then broadcast the per-id lookups over the table.  Note there is no
emptiness check on the unique stream-id list in this operation. -/
def rpOpRows (name : String) (src : RPSource) (table : List SIRow) :
    Except String (List SIRow) :=
  match selectRPData name src with
  | .error e => .error e
  | .ok dat => .ok (rpRows src.comids dat table)

/-- A shapefile feature as the slope path reads it: the raw id-field value
(a float, truncated by int(float(...))) and the slope-field value. -/
abbrev Feature := ℚ × ℚ

/-- The rows written by append_slope_to_stream_info_file: for each feature of
the (possibly spatially filtered) layer, every table row whose stream id
equals the truncated feature id is written as row[:5] + [slope] + row[6:]. -/
def slopeRows (features : List Feature) (table : List SIRow) : List SIRow :=
  features.flatMap
    (fun f => (matchRows table (ratTrunc f.1)).map (fun r => appendSlope5 r f.2))

/-- numpy truth-testing of an integer array, as used by
"if not streamid_list_unique:": an empty array is falsy, a one-element array
has the truth value of its element, and any larger array raises ValueError. -/
def npTruth (l : List Int) : Except String Bool :=
  match l with
  | [] => .ok false
  | [x] => .ok (decide (x ≠ 0))
  | _ => .error "The truth value of an array with more than one element is ambiguous."

/-- The validation at the head of append_streamflow_from_ecmwf_rapid_output:
raise when the truth test of the unique id array is false (and propagate the
ValueError the truth test itself raises on arrays of two or more elements). -/
def ensembleCheck (uniq : List Int) : Except String Unit :=
  match npTruth uniq with
  | .error e => .error e
  | .ok b => if b then .ok () else .error "ERROR: No stream id values found in stream info file."

/-- The ensemble reduction methods modelled here.  The source dispatches on
the strings mean / mean_plus_std / mean_minus_std / max / min; the two
standard-deviation variants involve a real square root and no claim touches
them, so only the three exactly-representable methods are embedded. -/
inductive Method
  | mean
  | amax
  | amin
deriving DecidableEq, Repr

/-- np.mean of a 1-D array: sum divided by length (0 for the empty array,
which no claim exercises). -/
def npMean1 (s : List ℚ) : ℚ := s.sum / (s.length : ℚ)

/-- np.amax of a 1-D array (0 for the empty array, which no claim exercises). -/
def npAmax1 (s : List ℚ) : ℚ :=
  match s with
  | [] => 0
  | x :: xs => xs.foldl max x

/-- np.amin of a 1-D array (0 for the empty array, which no claim exercises). -/
def npAmin1 (s : List ℚ) : ℚ :=
  match s with
  | [] => 0
  | x :: xs => xs.foldl min x

/-- Column t of a 2-D array (rows-of-lists), as the list of the rows' t-th
entries. -/
def column (m : List (List ℚ)) (t : Nat) : List ℚ := m.map (fun row => row.getD t 0)

/-- np.mean(m, axis=0): the column-wise mean, one entry per column of the
(rectangular) array. -/
def meanAxis0 (m : List (List ℚ)) : List ℚ :=
  (List.range (m.headD []).length).map (fun t => npMean1 (column m t))

/-- np.amax(m, axis=0): the column-wise maximum. -/
def amaxAxis0 (m : List (List ℚ)) : List ℚ :=
  (List.range (m.headD []).length).map (fun t => npAmax1 (column m t))

/-- np.amin(m, axis=0): the column-wise minimum. -/
def aminAxis0 (m : List (List ℚ)) : List ℚ :=
  (List.range (m.headD []).length).map (fun t => npAmin1 (column m t))

/-- Stage X of the ensemble statistic: collapse the per-member first-half and
second-half buffers of one stream id along axis 0 and concatenate the halves. -/
def reduceX (m : Method) (firstB secondB : List (List ℚ)) : List ℚ :=
  match m with
  | .mean => meanAxis0 firstB ++ meanAxis0 secondB
  | .amax => amaxAxis0 firstB ++ amaxAxis0 secondB
  | .amin => aminAxis0 firstB ++ aminAxis0 secondB

/-- Stage Y of the ensemble statistic: collapse the stage-X series to one
scalar. -/
def reduceY (m : Method) (series : List ℚ) : ℚ :=
  match m with
  | .mean => npMean1 series
  | .amax => npAmax1 series
  | .amin => npAmin1 series

/-- The scalar written for one stream id by the ensemble operation. -/
def ensembleVal (mx my : Method) (firstB secondB : List (List ℚ)) : ℚ :=
  reduceY my (reduceX mx firstB secondB)

/-- The rows written by append_streamflow_from_ecmwf_rapid_output: for each
(index, id) of the enumerated unique id list, the statistic of that index's
buffers is broadcast to every table row carrying the id, as row[:6] + [value]. -/
def ensembleRows (mx my : Method) (firstBufs secondBufs : List (List (List ℚ)))
    (table : List SIRow) : List SIRow :=
  (npUnique (sidColumn table)).enum.flatMap
    (fun p => (matchRows table p.2).map
      (fun r => appendFlow6 r (ensembleVal mx my (firstBufs.getD p.1 []) (secondBufs.getD p.1 []))))

/-- The pair of 3-D accumulation buffers of the ensemble operation, indexed
buffer[comid][file][time]. -/
abbrev Bufs := List (List (List ℚ)) × List (List (List ℚ))

/-- reach_prediciton_array_first_half = np.zeros((nC, nF, firstHalfSize)) and
reach_prediciton_array_second_half = np.zeros((nC, nF, 20)). -/
def initBufs (nC nF firstHalfSize : Nat) : Bufs :=
  (List.replicate nC (List.replicate nF (List.replicate firstHalfSize 0)),
   List.replicate nC (List.replicate nF (List.replicate 20 0)))

/-- buf[c][f] = v on a 3-D buffer. -/
def setSlot (buf : List (List (List ℚ))) (c f : Nat) (v : List ℚ) :
    List (List (List ℚ)) :=
  buf.set c ((buf.getD c []).set f v)

/-- What one iteration of the per-comid loop stores for file fIdx of ensemble
member eIdx, given the member's series for this comid: members below 52 store
series[:first_half_size] in the first-half buffer and series[first_half_size:]
in the second-half buffer; member 52 stores the spliced control series in the
first-half buffer only.  numpy rejects an assignment whose length differs
from the buffer slot's width (40/41/65, resp. 20) with a ValueError, which the
enclosing except catches: the Bool is false when the loop stops there, and the
buffers keep whatever was stored before the failing assignment. -/
def storeComid (firstHalfSize fIdx eIdx : Nat) (series : List ℚ) (c : Nat)
    (b : Bufs) : Bufs × Bool :=
  if eIdx < 52 then
    if (series.take firstHalfSize).length = firstHalfSize then
      if (series.drop firstHalfSize).length = 20 then
        ((setSlot b.1 c fIdx (series.take firstHalfSize),
          setSlot b.2 c fIdx (series.drop firstHalfSize)), true)
      else ((setSlot b.1 c fIdx (series.take firstHalfSize), b.2), false)
    else (b, false)
  else if eIdx = 52 then
    if (spliceControl firstHalfSize series).length = firstHalfSize then
      ((setSlot b.1 c fIdx (spliceControl firstHalfSize series), b.2), true)
    else (b, false)
  else (b, true)

/-- The loop for comid_index in range(len(streamid_list_unique)) over one
file's 2-D data array: each iteration reads data[c] (an IndexError when the
array is shorter stops the loop, caught by the enclosing except) and stores
the member's slices for that comid. -/
def fillComids (firstHalfSize fIdx eIdx : Nat) (dat : List (List ℚ)) :
    List Nat → Bufs → Bufs
  | [], b => b
  | c :: cs, b =>
    match dat.get? c with
    | none => b
    | some series =>
      match storeComid firstHalfSize fIdx eIdx series c b with
      | (b2, true) => fillComids firstHalfSize fIdx eIdx dat cs b2
      | (b2, false) => b2

/-- Processing of one prediction file inside the try/except of
append_streamflow_from_ecmwf_rapid_output: a read that raises (a file name
whose ensemble index fails to parse, an unreadable dataset, ...) is caught
and logged and leaves the buffers unchanged; a successful read yields the
ensemble index and the 2-D data array, which is stored for every comid when
non-empty. -/
def processFile (firstHalfSize nC : Nat) (b : Bufs) (fIdx : Nat)
    (read : Except String (Nat × List (List ℚ))) : Bufs :=
  match read with
  | .error _ => b
  | .ok (eIdx, dat) =>
    if 0 < dat.length then fillComids firstHalfSize fIdx eIdx dat (List.range nC) b
    else b

/-- The whole extraction loop: the files are processed in order, each with
its position as file_index, starting from the all-zero buffers. -/
def fillBuffers (firstHalfSize nC : Nat)
    (reads : List (Except String (Nat × List (List ℚ)))) : Bufs :=
  reads.enum.foldl (fun b p => processFile firstHalfSize nC b p.1 p.2)
    (initBufs nC reads.length firstHalfSize)

/-- A file system: the lines of each existing path. -/
def FileSys := String → Option (List String)

/-- The file-system effects an append operation performs. -/
inductive FAct
  | create (p : String)
  | addLine (p : String) (s : String)
  | removePath (p : String)
  | renamePath (src dst : String)

/-- Effect of one action: create truncates/creates the path, addLine appends
one written line to it, removePath is os.remove and renamePath is os.rename. -/
def applyAct (fs : FileSys) : FAct → FileSys :=
  fun a q =>
    match a with
    | .create p => if q = p then some [] else fs q
    | .addLine p s => if q = p then some ((fs p).getD [] ++ [s]) else fs q
    | .removePath p => if q = p then none else fs q
    | .renamePath src dst =>
      if q = dst then fs src else if q = src then none else fs q

/-- Effect of a sequence of actions, first action first. -/
def applyActs (fs : FileSys) (l : List FAct) : FileSys := l.foldl applyAct fs

/-- The file-system trace of every append operation on the Stream Index
Table: open the sibling temporary path for writing, write the header and the
transformed rows one line at a time, close, then os.remove the original and
os.rename the temporary file onto it.  The first 1 + lines.length actions
are the writing phase. -/
def appendTrace (orig temp : String) (lines : List String) : List FAct :=
  (FAct.create temp :: lines.map (FAct.addLine temp))
    ++ [FAct.removePath orig, FAct.renamePath temp orig]

end AutoRoute

namespace AutoRoute

theorem applyActs_temp_only (temp q : String) (hq : q ≠ temp) :
    ∀ (acts : List FAct) (fs : FileSys),
      (∀ a ∈ acts, a = FAct.create temp ∨ ∃ s, a = FAct.addLine temp s) →
      applyActs fs acts q = fs q := by
  intro acts
  induction acts with
  | nil => intro fs _; rfl
  | cons a l ih =>
    intro fs h
    have ha := h a (List.mem_cons_self a l)
    have hstep : applyAct fs a q = fs q := by
      rcases ha with rfl | ⟨s, rfl⟩
      · simp [applyAct, hq]
      · simp [applyAct, hq]
    have hl : ∀ b ∈ l, b = FAct.create temp ∨ ∃ s, b = FAct.addLine temp s :=
      fun b hb => h b (List.mem_cons_of_mem a hb)
    calc applyActs fs (a :: l) q = applyActs (applyAct fs a) l q := rfl
      _ = applyAct fs a q := ih (applyAct fs a) hl
      _ = fs q := hstep

/-- C2: every append operation writes the new rows to a sibling temporary
file first; the original path is removed and replaced only by the two final
actions of the trace, so stopping the trace at any point of the writing
phase (the first 1 + lines.length actions) leaves the original file's
content unchanged. -/
theorem claim2_atomic_replace (orig temp : String) (lines : List String)
    (fs : FileSys) (k : Nat) (hne : temp ≠ orig) (hk : k ≤ 1 + lines.length) :
    applyActs fs ((appendTrace orig temp lines).take k) orig = fs orig := by
  have hlen : (FAct.create temp :: lines.map (FAct.addLine temp)).length
      = 1 + lines.length := by
    simp [Nat.add_comm]
  have htake : (appendTrace orig temp lines).take k
      = (FAct.create temp :: lines.map (FAct.addLine temp)).take k := by
    unfold appendTrace
    exact List.take_append_of_le_length (by rw [hlen]; exact hk)
  rw [htake]
  apply applyActs_temp_only temp orig (fun h => hne h.symm)
  intro a ha
  have ha2 := List.take_subset k _ ha
  rcases List.mem_cons.mp ha2 with rfl | hmem
  · exact Or.inl rfl
  · rcases List.mem_map.mp hmem with ⟨s, _, rfl⟩
    exact Or.inr ⟨s, rfl⟩

/-- Witness for claim2_atomic_replace: a concrete two-line write stopped
after its first line leaves the original file's one-line content intact. -/
theorem claim2_atomic_replace_witness :
    "si_temp.txt" ≠ "si.txt" ∧
    applyActs (fun p => if p = "si.txt" then some ["old"] else none)
      ((appendTrace "si.txt" "si_temp.txt" ["header", "row"]).take 2) "si.txt"
      = (fun p => if p = "si.txt" then some ["old"] else none) "si.txt" :=
  ⟨by decide,
   claim2_atomic_replace "si.txt" "si_temp.txt" ["header", "row"]
     (fun p => if p = "si.txt" then some ["old"] else none) 2 (by decide)
     (by simp)⟩

theorem chunkList_flatten (step : Nat) (hstep : 0 < step) :
    ∀ (fuel : Nat) (l : List α), l.length ≤ fuel →
      (chunkList step fuel l).flatten = l := by
  intro fuel
  induction fuel with
  | zero =>
    intro l hl
    have : l = [] := List.eq_nil_of_length_eq_zero (Nat.le_zero.mp hl)
    subst this
    rfl
  | succ fuel ih =>
    intro l hl
    cases l with
    | nil => rfl
    | cons x xs =>
      have hrec := ih ((x :: xs).drop step) (by simp at hl ⊢; omega)
      calc (chunkList step (fuel + 1) (x :: xs)).flatten
          = (x :: xs).take step ++ (chunkList step fuel ((x :: xs).drop step)).flatten := rfl
        _ = (x :: xs).take step ++ (x :: xs).drop step := by rw [hrec]
        _ = x :: xs := List.take_append_drop step (x :: xs)

/-- C8 (amended): when the time-window length does not exceed the fixed
element budget of 8*365*5*4000, the chosen batch size times the time length
stays within the budget and the batches exactly cover the unique id list. -/
theorem claim8_amended_batch_budget (ids : List Int) (timeLength : Nat)
    (h1 : 0 < ids.length) (h2 : 0 < timeLength) (h3 : timeLength ≤ maxChunkSize) :
    stepSize timeLength ids.length * timeLength ≤ maxChunkSize ∧
    ∃ bs, pyChunks (stepSize timeLength ids.length) ids = .ok bs ∧
      bs.flatten = ids := by
  have hbound : stepSize timeLength ids.length * timeLength ≤ maxChunkSize := by
    calc stepSize timeLength ids.length * timeLength
        ≤ (maxChunkSize / timeLength) * timeLength :=
          Nat.mul_le_mul_right timeLength (min_le_left _ _)
      _ ≤ maxChunkSize := Nat.div_mul_le_self maxChunkSize timeLength
  have hpos : 0 < stepSize timeLength ids.length :=
    lt_min (Nat.div_pos h3 h2) h1
  refine ⟨hbound, chunkList (stepSize timeLength ids.length) ids.length ids, ?_, ?_⟩
  · unfold pyChunks
    rw [if_neg (Nat.pos_iff_ne_zero.mp hpos)]
  · exact chunkList_flatten _ hpos ids.length ids le_rfl

/-- Witness for claim8_amended_batch_budget: three ids and a ten-step time
window give batch size 3, within budget, and one batch covering the list. -/
theorem claim8_amended_batch_budget_witness :
    stepSize 10 3 * 10 ≤ maxChunkSize ∧
    ∃ bs, pyChunks (stepSize 10 3) [(1 : Int), 2, 3] = .ok bs ∧
      bs.flatten = [(1 : Int), 2, 3] :=
  claim8_amended_batch_budget [(1 : Int), 2, 3] 10 (by decide) (by decide)
    (by decide)

/-- C8 counterexample: for a time-window length exceeding the element budget
(here budget + 1 with a single stream id) the computed batch size is 0 and
the batching loop raises (range() with step 0) instead of covering the id
list, so the claim's unconditional coverage fails. -/
theorem claim8_counterexample :
    stepSize (maxChunkSize + 1) 1 = 0 ∧
    ¬ ∃ bs, pyChunks (stepSize (maxChunkSize + 1) 1) [(7 : Int)] = .ok bs ∧
        bs.flatten = [(7 : Int)] := by
  have hstep : stepSize (maxChunkSize + 1) 1 = 0 := by
    unfold stepSize
    rw [Nat.div_eq_of_lt (Nat.lt_succ_self maxChunkSize)]
    rfl
  refine ⟨hstep, ?_⟩
  rintro ⟨bs, hok, -⟩
  rw [hstep] at hok
  simp [pyChunks] at hok

theorem exMapM_ok_iff (f : α → Except String β) :
    ∀ (l : List α) (bs : List β),
      exMapM f l = .ok bs ↔ List.Forall₂ (fun a b => f a = .ok b) l bs := by
  intro l
  induction l with
  | nil =>
    intro bs
    constructor
    · intro h
      cases bs with
      | nil => exact List.Forall₂.nil
      | cons b bs => simp [exMapM] at h
    · intro h
      cases h
      rfl
  | cons a l ih =>
    intro bs
    constructor
    · intro h
      cases h1 : f a with
      | error e => rw [exMapM, h1] at h; cases h
      | ok b =>
        rw [exMapM, h1] at h
        cases h2 : exMapM f l with
        | error e => rw [h2] at h; cases h
        | ok bs2 =>
          rw [h2] at h
          cases h
          exact List.Forall₂.cons h1 ((ih bs2).mp h2)
    · intro h
      cases h with
      | cons hab htail =>
        rw [exMapM, hab, (ih _).mpr htail]

theorem exMapM_error_mem (f : α → Except String β) :
    ∀ (l : List α) (e : String), exMapM f l = .error e → ∃ a ∈ l, f a = .error e := by
  intro l
  induction l with
  | nil => intro e h; cases h
  | cons a l ih =>
    intro e h
    cases h1 : f a with
    | error e2 =>
      rw [exMapM, h1] at h
      cases h
      exact ⟨a, List.mem_cons_self a l, h1⟩
    | ok b =>
      rw [exMapM, h1] at h
      cases h2 : exMapM f l with
      | error e2 =>
        rw [h2] at h
        cases h
        obtain ⟨a2, ha2, hf⟩ := ih e h2
        exact ⟨a2, List.mem_cons_of_mem a ha2, hf⟩
      | ok bs => rw [h2] at h; cases h

theorem exMapM_ok_of_all (f : α → Except String β) :
    ∀ (l : List α), (∀ a ∈ l, ∃ b, f a = .ok b) → ∃ bs, exMapM f l = .ok bs := by
  intro l
  induction l with
  | nil => intro _; exact ⟨[], rfl⟩
  | cons a l ih =>
    intro h
    obtain ⟨b, hb⟩ := h a (List.mem_cons_self a l)
    obtain ⟨bs, hbs⟩ := ih (fun a2 ha2 => h a2 (List.mem_cons_of_mem a ha2))
    exact ⟨b :: bs, by rw [exMapM, hb, hbs]⟩

theorem forall2_mem_right {R : α → β → Prop} :
    ∀ {l : List α} {bs : List β}, List.Forall₂ R l bs → ∀ b ∈ bs, ∃ a ∈ l, R a b := by
  intro l bs h
  induction h with
  | nil => intro b hb; cases hb
  | cons hab _ ih =>
    intro b hb
    rcases List.mem_cons.mp hb with rfl | hb2
    · exact ⟨_, List.mem_cons_self _ _, hab⟩
    · obtain ⟨a, ha, hr⟩ := ih b hb2
      exact ⟨a, List.mem_cons_of_mem _ ha, hr⟩

theorem forall2_map_key {R : α → β → Prop} (key : β → α)
    (hkey : ∀ a b, R a b → key b = a) :
    ∀ {l : List α} {bs : List β}, List.Forall₂ R l bs → bs.map key = l := by
  intro l bs h
  induction h with
  | nil => rfl
  | cons hab _ ih => simp [ih, hkey _ _ hab]

theorem peakMax_error_iff (s : List ℚ) (e : String) :
    peakMax s = .error e ↔ s = [] ∧ e = "max() arg is an empty sequence" := by
  cases s <;> simp [peakMax, eq_comm]

theorem peakMax_ok_of_ne (s : List ℚ) (h : s ≠ []) : ∃ v, peakMax s = .ok v := by
  cases s with
  | nil => exact absurd rfl h
  | cons x xs => exact ⟨xs.foldl max x, rfl⟩

theorem batchAssign_error_msg (ds : Dataset) (batch : List Int) (e : String)
    (h : batchAssign ds batch = .error e) : e = "max() arg is an empty sequence" := by
  unfold batchAssign at h
  cases h1 : exMapM (fun id => (peakMax ((dsFind ds id).getD [])).map (fun p => (id, p)))
      (batch.filter (fun id => (dsFind ds id).isSome)) with
  | error e2 =>
    rw [h1] at h
    cases h
    obtain ⟨id, _, hf⟩ := exMapM_error_mem _ _ _ h1
    cases h2 : peakMax ((dsFind ds id).getD []) with
    | error e3 =>
      rw [h2] at hf
      cases hf
      exact ((peakMax_error_iff _ _).mp h2).2
    | ok v => rw [h2] at hf; cases hf
  | ok vp => rw [h1] at h; cases h

theorem chunkedAssign_error_msg (ds : Dataset) (step : Nat) (ids : List Int)
    (e : String) (h : chunkedAssign ds step ids = .error e) :
    e = "range() arg 3 must not be zero" ∨ e = "max() arg is an empty sequence" := by
  unfold chunkedAssign at h
  cases h1 : pyChunks step ids with
  | error e2 =>
    rw [h1] at h
    cases h
    unfold pyChunks at h1
    by_cases hs : step = 0
    · rw [if_pos hs] at h1
      cases h1
      exact Or.inl rfl
    · rw [if_neg hs] at h1
      cases h1
  | ok bs =>
    rw [h1] at h
    dsimp only at h
    cases h2 : exMapM (batchAssign ds) bs with
    | error e2 =>
      rw [h2] at h
      cases h
      obtain ⟨b, _, hb⟩ := exMapM_error_mem _ _ _ h2
      exact Or.inr (batchAssign_error_msg ds b e hb)
    | ok ls => rw [h2] at h; cases h

/-- C4 (amended): the emptiness validation differs per operation.  The
ensemble operation's numpy truth test passes only a one-element unique id
array with a nonzero id: the empty array (and the single id 0) raise the
no-stream-ids error, and any array of two or more unique ids raises numpy's
ambiguous-truth-value ValueError.  The single-run peak-flow operation raises
its no-stream-ids IndexError exactly when the unique id set is empty (before
the original table is touched, since only the temporary file has been written
at that point).  The return-period lookup has no such validation: on an empty
table it succeeds and rewrites the table as just a header. -/
theorem claim4_amended_emptiness_validation :
    (∀ u : List Int, ensembleCheck u = .ok () ↔ ∃ x, x ≠ 0 ∧ u = [x]) ∧
    (∀ (ds : Dataset) (step : Nat) (table : List SIRow),
      rapidRows ds step table = .error "Invalid stream info file. No stream ID's found ..."
        ↔ (npUnique (sidColumn table)).length = 0) ∧
    (∀ (src : RPSource) (dat : List ℚ), rpRows src.comids dat [] = []) := by
  refine ⟨?_, ?_, ?_⟩
  · intro u
    match u with
    | [] => simp [ensembleCheck, npTruth]
    | [x] =>
      by_cases hx : x = 0
      · subst hx
        simp [ensembleCheck, npTruth]
      · simp [ensembleCheck, npTruth, hx]
    | x :: y :: l => simp [ensembleCheck, npTruth]
  · intro ds step table
    constructor
    · intro h
      by_contra hne
      unfold rapidRows at h
      rw [if_neg hne] at h
      cases h1 : chunkedAssign ds step (npUnique (sidColumn table)) with
      | error e =>
        rw [h1] at h
        cases h
        rcases chunkedAssign_error_msg ds step _ _ h1 with he | he <;> simp at he
      | ok l => rw [h1] at h; cases h
    · intro h
      unfold rapidRows
      rw [if_pos h]
  · intro src dat
    rfl

/-- Witness for claim4_amended_emptiness_validation: the ensemble check
passes the one-element array [3], the single-run operation reports the
no-stream-ids error on the empty table, and the return-period broadcast on
the empty table is empty. -/
theorem claim4_amended_emptiness_validation_witness :
    ensembleCheck [3] = .ok () ∧
    rapidRows [] 1 [] = .error "Invalid stream info file. No stream ID's found ..." ∧
    rpRows [(5 : Int)] [2] [] = [] := by
  refine ⟨?_, ?_, ?_⟩
  · exact (claim4_amended_emptiness_validation.1 [3]).mpr ⟨3, by decide, rfl⟩
  · exact (claim4_amended_emptiness_validation.2.1 [] 1 []).mpr rfl
  · exact claim4_amended_emptiness_validation.2.2 ⟨[2], [2], [2], [5]⟩ [2]

/-- C4 counterexample: the claim's validation contract fails on both sides.
The ensemble operation's check raises on the non-empty unique id array
[1, 2] (numpy's ambiguous truth value), and the return-period operation does
not fail on a table whose unique stream-id set is empty: it succeeds and
produces no rows. -/
theorem claim4_counterexample :
    ensembleCheck [1, 2] ≠ .ok () ∧
    rpOpRows "return_period_2" ⟨[2], [2], [2], [5]⟩ [] = .ok [] := by
  constructor
  · intro h
    simp [ensembleCheck, npTruth] at h
  · rfl

theorem forall2_mem_left {R : α → β → Prop} :
    ∀ {l : List α} {bs : List β}, List.Forall₂ R l bs → ∀ a ∈ l, ∃ b ∈ bs, R a b := by
  intro l bs h
  induction h with
  | nil => intro a ha; cases ha
  | cons hab _ ih =>
    intro a ha
    rcases List.mem_cons.mp ha with rfl | ha2
    · exact ⟨_, List.mem_cons_self _ _, hab⟩
    · obtain ⟨b, hb, hr⟩ := ih a ha2
      exact ⟨b, List.mem_cons_of_mem _ hb, hr⟩

theorem batchAssign_ok_pairs (ds : Dataset) (batch : List Int)
    (l : List (Int × ℚ)) (h : batchAssign ds batch = .ok l) :
    ∀ p ∈ l, peakVal ds p.1 = .ok p.2 := by
  unfold batchAssign at h
  cases h1 : exMapM (fun id => (peakMax ((dsFind ds id).getD [])).map (fun p => (id, p)))
      (batch.filter (fun id => (dsFind ds id).isSome)) with
  | error e => rw [h1] at h; cases h
  | ok vp =>
    rw [h1] at h
    cases h
    intro p hp
    rcases List.mem_append.mp hp with hv | hm
    · obtain ⟨id, hid, hf⟩ := forall2_mem_right ((exMapM_ok_iff _ _ _).mp h1) p hv
      have hsome : (dsFind ds id).isSome := (List.mem_filter.mp hid).2
      obtain ⟨s, hs⟩ := Option.isSome_iff_exists.mp hsome
      rw [hs] at hf
      simp only [Option.getD_some] at hf
      cases h2 : peakMax s with
      | error e => rw [h2] at hf; cases hf
      | ok v =>
        rw [h2] at hf
        cases hf
        show peakVal ds id = _
        unfold peakVal
        rw [hs]
        exact h2
    · obtain ⟨id, hid, rfl⟩ := List.mem_map.mp hm
      have hnone : (dsFind ds id).isNone := (List.mem_filter.mp hid).2
      show peakVal ds id = _
      unfold peakVal
      rw [Option.isNone_iff_eq_none.mp hnone]

theorem batchAssign_ok_keys (ds : Dataset) (batch : List Int)
    (l : List (Int × ℚ)) (h : batchAssign ds batch = .ok l) :
    ∀ id ∈ batch, id ∈ l.map Prod.fst := by
  unfold batchAssign at h
  cases h1 : exMapM (fun id => (peakMax ((dsFind ds id).getD [])).map (fun p => (id, p)))
      (batch.filter (fun id => (dsFind ds id).isSome)) with
  | error e => rw [h1] at h; cases h
  | ok vp =>
    rw [h1] at h
    cases h
    intro id hid
    have hkeys : vp.map Prod.fst = batch.filter (fun id => (dsFind ds id).isSome) := by
      refine forall2_map_key Prod.fst ?_ ((exMapM_ok_iff _ _ _).mp h1)
      intro a b hab
      cases h2 : peakMax ((dsFind ds a).getD []) with
      | error e => rw [h2] at hab; cases hab
      | ok v => rw [h2] at hab; cases hab; rfl
    rw [List.map_append]
    cases h2 : (dsFind ds id).isSome with
    | true =>
      apply List.mem_append_left
      rw [hkeys]
      exact List.mem_filter.mpr ⟨hid, h2⟩
    | false =>
      apply List.mem_append_right
      have : id ∈ batch.filter (fun id => (dsFind ds id).isNone) := by
        refine List.mem_filter.mpr ⟨hid, ?_⟩
        cases h3 : dsFind ds id with
        | none => rfl
        | some s => rw [h3] at h2; cases h2
      simpa [List.map_map, Function.comp] using this

theorem lookupAssign_peak (ds : Dataset) (id : Int) :
    ∀ (l : List (Int × ℚ)), (∀ p ∈ l, peakVal ds p.1 = .ok p.2) →
      id ∈ l.map Prod.fst →
      ∃ v, lookupAssign l id = some v ∧ peakVal ds id = .ok v := by
  intro l
  induction l with
  | nil => intro _ hmem; cases hmem
  | cons p l ih =>
    intro hpairs hmem
    by_cases hk : p.1 = id
    · refine ⟨p.2, ?_, ?_⟩
      · unfold lookupAssign
        rw [List.find?_cons_of_pos _ (by simp [hk])]
        rfl
      · rw [← hk]
        exact hpairs p (List.mem_cons_self _ _)
    · have hmem2 : id ∈ l.map Prod.fst := by
        rw [List.map_cons] at hmem
        rcases List.mem_cons.mp hmem with h | h
        · exact absurd h.symm hk
        · exact h
      obtain ⟨v, hfind, hpeak⟩ :=
        ih (fun q hq => hpairs q (List.mem_cons_of_mem _ hq)) hmem2
      refine ⟨v, ?_, hpeak⟩
      unfold lookupAssign at hfind ⊢
      rw [List.find?_cons_of_neg _ (by simp [hk]), hfind]

theorem batchAssign_not_ok_of_bad (ds : Dataset) (batch : List Int) (id : Int)
    (hid : id ∈ batch) (hbad : dsFind ds id = some []) :
    ∀ l, batchAssign ds batch ≠ .ok l := by
  intro l h
  have hkey := batchAssign_ok_keys ds batch l h id hid
  obtain ⟨v, _, hpeak⟩ :=
    lookupAssign_peak ds id l (batchAssign_ok_pairs ds batch l h) hkey
  unfold peakVal at hpeak
  rw [hbad] at hpeak
  cases hpeak

theorem batchAssign_error_of_bad (ds : Dataset) (batch : List Int) (id : Int)
    (hid : id ∈ batch) (hbad : dsFind ds id = some []) :
    batchAssign ds batch = .error "max() arg is an empty sequence" := by
  cases h : batchAssign ds batch with
  | error e => rw [batchAssign_error_msg ds batch e h]
  | ok l => exact absurd h (batchAssign_not_ok_of_bad ds batch id hid hbad l)

theorem chunkedAssign_ok_pairs (ds : Dataset) (step : Nat) (ids : List Int)
    (L : List (Int × ℚ)) (h : chunkedAssign ds step ids = .ok L) :
    ∀ p ∈ L, peakVal ds p.1 = .ok p.2 := by
  unfold chunkedAssign at h
  cases h1 : pyChunks step ids with
  | error e => rw [h1] at h; cases h
  | ok bs =>
    rw [h1] at h
    dsimp only at h
    cases h2 : exMapM (batchAssign ds) bs with
    | error e => rw [h2] at h; cases h
    | ok ls =>
      rw [h2] at h
      cases h
      intro p hp
      obtain ⟨l, hl, hpl⟩ := List.mem_flatten.mp hp
      obtain ⟨b, _, hb⟩ := forall2_mem_right ((exMapM_ok_iff _ _ _).mp h2) l hl
      exact batchAssign_ok_pairs ds b l hb p hpl

theorem chunkedAssign_ok_keys (ds : Dataset) (step : Nat) (ids : List Int)
    (L : List (Int × ℚ)) (hstep : 0 < step) (h : chunkedAssign ds step ids = .ok L) :
    ∀ id ∈ ids, id ∈ L.map Prod.fst := by
  unfold chunkedAssign at h
  cases h1 : pyChunks step ids with
  | error e => rw [h1] at h; cases h
  | ok bs =>
    rw [h1] at h
    dsimp only at h
    cases h2 : exMapM (batchAssign ds) bs with
    | error e => rw [h2] at h; cases h
    | ok ls =>
      rw [h2] at h
      cases h
      intro id hid
      have hflat : bs.flatten = ids := by
        unfold pyChunks at h1
        rw [if_neg (Nat.pos_iff_ne_zero.mp hstep)] at h1
        cases h1
        exact chunkList_flatten step hstep ids.length ids le_rfl
      rw [← hflat] at hid
      obtain ⟨b, hbmem, hidb⟩ := List.mem_flatten.mp hid
      obtain ⟨l, hl, hbl⟩ := forall2_mem_left ((exMapM_ok_iff _ _ _).mp h2) b hbmem
      have := batchAssign_ok_keys ds b l hbl id hidb
      rw [List.map_flatten]
      exact List.mem_flatten.mpr ⟨l.map Prod.fst, List.mem_map_of_mem _ hl, this⟩

theorem chunkedAssign_error_of_bad (ds : Dataset) (step : Nat) (ids : List Int)
    (id : Int) (hstep : 0 < step) (hid : id ∈ ids) (hbad : dsFind ds id = some []) :
    chunkedAssign ds step ids = .error "max() arg is an empty sequence" := by
  unfold chunkedAssign
  cases h1 : pyChunks step ids with
  | error e =>
    unfold pyChunks at h1
    rw [if_neg (Nat.pos_iff_ne_zero.mp hstep)] at h1
    cases h1
  | ok bs =>
    have hflat : bs.flatten = ids := by
      unfold pyChunks at h1
      rw [if_neg (Nat.pos_iff_ne_zero.mp hstep)] at h1
      cases h1
      exact chunkList_flatten step hstep ids.length ids le_rfl
    dsimp only
    cases h2 : exMapM (batchAssign ds) bs with
    | error e =>
      obtain ⟨b, _, hb⟩ := exMapM_error_mem _ _ _ h2
      rw [batchAssign_error_msg ds b e hb]
    | ok ls =>
      rw [← hflat] at hid
      obtain ⟨b, hbmem, hidb⟩ := List.mem_flatten.mp hid
      obtain ⟨l, _, hbl⟩ := forall2_mem_left ((exMapM_ok_iff _ _ _).mp h2) b hbmem
      exact absurd hbl (batchAssign_not_ok_of_bad ds b id hidb hbad l)

theorem unchunkedAssign_lookup (ds : Dataset) (ids : List Int) (id : Int)
    (hid : id ∈ ids)
    (hgood : ∀ i ∈ ids, ∀ s, dsFind ds i = some s → s ≠ []) :
    ∃ l v, unchunkedAssign ds ids = .ok l ∧ lookupAssign l id = some v ∧
      peakVal ds id = .ok v := by
  have hall : ∀ i ∈ ids.filter (fun i => (dsFind ds i).isSome),
      ∃ b, (peakMax ((dsFind ds i).getD [])).map (fun p => (i, p)) = .ok b := by
    intro i hi
    have hsome : (dsFind ds i).isSome := (List.mem_filter.mp hi).2
    obtain ⟨s, hs⟩ := Option.isSome_iff_exists.mp hsome
    obtain ⟨v, hv⟩ := peakMax_ok_of_ne s (hgood i (List.mem_filter.mp hi).1 s hs)
    exact ⟨(i, v), by rw [hs]; simp only [Option.getD_some, hv]; rfl⟩
  have hok : ∃ l, batchAssign ds ids = .ok l := by
    unfold batchAssign
    obtain ⟨vp, hvp⟩ := exMapM_ok_of_all
      (fun i => (peakMax ((dsFind ds i).getD [])).map (fun p => (i, p)))
      (ids.filter (fun i => (dsFind ds i).isSome)) hall
    exact ⟨_, by rw [hvp]⟩
  obtain ⟨l, hl⟩ := hok
  obtain ⟨v, hfind, hpeak⟩ := lookupAssign_peak ds id l
    (batchAssign_ok_pairs ds ids l hl) (batchAssign_ok_keys ds ids l hl id hid)
  exact ⟨l, v, hl, hfind, hpeak⟩

/-- C6: the chunked peak-flow extraction assigns to every stream id exactly
the value the unchunked (single batch over the whole unique id list)
extraction assigns: for any positive batch size, looking the id up in the
produced assignments gives the same result, including the error case (an
empty series raises max() identically in both). -/
theorem claim6_chunked_eq_unchunked (ds : Dataset) (step : Nat) (ids : List Int)
    (id : Int) (hstep : 0 < step) (hid : id ∈ ids) :
    Except.map (fun l => lookupAssign l id) (chunkedAssign ds step ids)
      = Except.map (fun l => lookupAssign l id) (unchunkedAssign ds ids) := by
  by_cases hbad : ∃ i ∈ ids, dsFind ds i = some []
  · obtain ⟨i, hi, hdsi⟩ := hbad
    rw [chunkedAssign_error_of_bad ds step ids i hstep hi hdsi,
      show unchunkedAssign ds ids = _ from batchAssign_error_of_bad ds ids i hi hdsi]
  · have hgood : ∀ i ∈ ids, ∀ s, dsFind ds i = some s → s ≠ [] := by
      intro i hi s hs hnil
      exact hbad ⟨i, hi, by rw [hs, hnil]⟩
    obtain ⟨l, v, hl, hfind, hpeak⟩ := unchunkedAssign_lookup ds ids id hid hgood
    have hchunk : ∃ L, chunkedAssign ds step ids = .ok L := by
      cases h : chunkedAssign ds step ids with
      | error e =>
        rcases chunkedAssign_error_msg ds step ids e h with rfl | rfl
        · unfold chunkedAssign pyChunks at h
          rw [if_neg (Nat.pos_iff_ne_zero.mp hstep)] at h
          dsimp only at h
          cases h2 : exMapM (batchAssign ds) (chunkList step ids.length ids) with
          | error e =>
            rw [h2] at h
            cases h
            obtain ⟨b, _, hb⟩ := exMapM_error_mem _ _ _ h2
            have := batchAssign_error_msg ds b _ hb
            simp at this
          | ok ls => rw [h2] at h; cases h
        · unfold chunkedAssign at h
          cases h1 : pyChunks step ids with
          | error e =>
            unfold pyChunks at h1
            rw [if_neg (Nat.pos_iff_ne_zero.mp hstep)] at h1
            cases h1
          | ok bs =>
            rw [h1] at h
            dsimp only at h
            cases h2 : exMapM (batchAssign ds) bs with
            | error e =>
              rw [h2] at h
              cases h
              obtain ⟨b, hbmem, hb⟩ := exMapM_error_mem _ _ _ h2
              obtain ⟨ib, hib, hbadb⟩ : ∃ i ∈ b, dsFind ds i = some [] := by
                unfold batchAssign at hb
                cases h3 : exMapM (fun i => (peakMax ((dsFind ds i).getD [])).map
                    (fun p => (i, p))) (b.filter (fun i => (dsFind ds i).isSome)) with
                | error e2 =>
                  rw [h3] at hb
                  cases hb
                  obtain ⟨i, hi, hf⟩ := exMapM_error_mem _ _ _ h3
                  have hsome : (dsFind ds i).isSome := (List.mem_filter.mp hi).2
                  obtain ⟨s, hs⟩ := Option.isSome_iff_exists.mp hsome
                  rw [hs] at hf
                  simp only [Option.getD_some] at hf
                  cases h4 : peakMax s with
                  | error e3 =>
                    have := (peakMax_error_iff s e3).mp h4
                    exact ⟨i, (List.mem_filter.mp hi).1, by rw [hs, this.1]⟩
                  | ok v2 => rw [h4] at hf; cases hf
                | ok vp => rw [h3] at hb; cases hb
              have hflat : bs.flatten = ids := by
                unfold pyChunks at h1
                rw [if_neg (Nat.pos_iff_ne_zero.mp hstep)] at h1
                cases h1
                exact chunkList_flatten step hstep ids.length ids le_rfl
              refine absurd ?_ (hgood ib ?_ [] hbadb)
              · rfl
              · rw [← hflat]
                exact List.mem_flatten.mpr ⟨b, hbmem, hib⟩
            | ok ls => rw [h2] at h; cases h
      | ok L => exact ⟨L, rfl⟩
    obtain ⟨L, hL⟩ := hchunk
    obtain ⟨v2, hfind2, hpeak2⟩ := lookupAssign_peak ds id L
      (chunkedAssign_ok_pairs ds step ids L hL)
      (chunkedAssign_ok_keys ds step ids L hstep hL id hid)
    rw [hL, hl]
    have : v2 = v := by
      rw [hpeak] at hpeak2
      cases hpeak2
      rfl
    simp [Except.map, hfind, hfind2, this]

/-- Witness for claim6_chunked_eq_unchunked: batch size 1 over two ids, one
missing from the dataset, gives the same lookups as the single-batch run. -/
theorem claim6_chunked_eq_unchunked_witness :
    Except.map (fun l => lookupAssign l 10)
        (chunkedAssign [((10 : Int), [(3 : ℚ), 7])] 1 [(10 : Int), 20])
      = Except.map (fun l => lookupAssign l 10)
        (unchunkedAssign [((10 : Int), [(3 : ℚ), 7])] [(10 : Int), 20]) :=
  claim6_chunked_eq_unchunked [((10 : Int), [(3 : ℚ), 7])] 1 [(10 : Int), 20] 10
    (by decide) (by decide)

theorem npUnique_perm_dedup (l : List Int) : (npUnique l).Perm l.dedup :=
  List.perm_insertionSort (· ≤ ·) l.dedup

theorem npUnique_mem (l : List Int) (a : Int) : a ∈ npUnique l ↔ a ∈ l := by
  rw [(npUnique_perm_dedup l).mem_iff]
  exact List.mem_dedup

theorem npUnique_nodup (l : List Int) : (npUnique l).Nodup :=
  (npUnique_perm_dedup l).nodup_iff.mpr l.nodup_dedup

theorem npUnique_sorted (l : List Int) : (npUnique l).Sorted (· ≤ ·) :=
  List.sorted_insertionSort (· ≤ ·) l.dedup

theorem npUnique_sorted_lt (l : List Int) : (npUnique l).Pairwise (· < ·) := by
  have h1 := npUnique_sorted l
  have h2 := npUnique_nodup l
  exact (h1.and h2).imp (fun h => lt_of_le_of_ne h.1 h.2)

theorem flatMap_congr_mem {f g : α → List β} :
    ∀ (l : List α), (∀ a ∈ l, f a = g a) → l.flatMap f = l.flatMap g := by
  intro l
  induction l with
  | nil => intro _; rfl
  | cons a l ih =>
    intro h
    rw [List.flatMap_cons, List.flatMap_cons, h a (List.mem_cons_self a l),
      ih (fun b hb => h b (List.mem_cons_of_mem a hb))]

theorem filter_append_not_of_min (a : Int) :
    ∀ (t : List SIRow), (sidColumn t).Sorted (· ≤ ·) →
      (∀ r ∈ t, sidOf r = a ∨ a < sidOf r) →
      t.filter (fun r => sidOf r == a)
        ++ t.filter (fun r => !(sidOf r == a)) = t := by
  intro t
  induction t with
  | nil => intro _ _; rfl
  | cons r t ih =>
    intro hsorted hmin
    have hsorted2 : (sidColumn t).Sorted (· ≤ ·) := by
      rw [sidColumn, List.map_cons] at hsorted
      exact (List.sorted_cons.mp hsorted).2
    have hhead : ∀ x ∈ t, sidOf r ≤ sidOf x := by
      rw [sidColumn, List.map_cons] at hsorted
      intro x hx
      exact (List.sorted_cons.mp hsorted).1 (sidOf x) (List.mem_map_of_mem sidOf hx)
    by_cases ha : sidOf r = a
    · rw [List.filter_cons_of_pos (by simp [ha]), List.filter_cons_of_neg (by simp [ha])]
      rw [List.cons_append,
        ih hsorted2 (fun x hx => hmin x (List.mem_cons_of_mem r hx))]
    · have hlt : a < sidOf r := by
        rcases hmin r (List.mem_cons_self r t) with h | h
        · exact absurd h ha
        · exact h
      have hnone : ∀ x ∈ t, ¬(sidOf x = a) := by
        intro x hx hxa
        have := hhead x hx
        rw [hxa] at this
        exact absurd (lt_of_lt_of_le hlt this) (lt_irrefl a)
      rw [List.filter_cons_of_neg (by simp [ha]), List.filter_cons_of_pos (by simp [ha])]
      rw [List.filter_eq_nil_iff.mpr (by intro x hx; simp [hnone x hx]),
        List.nil_append, List.cons_inj_right]
      exact List.filter_eq_self.mpr (by intro x hx; simp [hnone x hx])

theorem flatMap_filter_sorted :
    ∀ (u : List Int) (t : List SIRow), u.Pairwise (· < ·) →
      (∀ r ∈ t, sidOf r ∈ u) → (sidColumn t).Sorted (· ≤ ·) →
      u.flatMap (fun id => t.filter (fun r => sidOf r == id)) = t := by
  intro u
  induction u with
  | nil =>
    intro t _ hmem _
    cases t with
    | nil => rfl
    | cons r t => exact absurd (hmem r (List.mem_cons_self r t)) (List.not_mem_nil _)
  | cons a u ih =>
    intro t hpair hmem hsorted
    have hmin : ∀ r ∈ t, sidOf r = a ∨ a < sidOf r := by
      intro r hr
      rcases List.mem_cons.mp (hmem r hr) with h | h
      · exact Or.inl h
      · exact Or.inr ((List.pairwise_cons.mp hpair).1 (sidOf r) h)
    have ht2mem : ∀ r ∈ t.filter (fun r => !(sidOf r == a)), sidOf r ∈ u := by
      intro r hr
      have hrt := (List.mem_filter.mp hr).1
      have hna : ¬(sidOf r == a) = true := by
        have := (List.mem_filter.mp hr).2
        simp at this
        simp [this]
      rcases List.mem_cons.mp (hmem r hrt) with h | h
      · exact absurd (by simp [h]) hna
      · exact h
    have ht2sorted : (sidColumn (t.filter (fun r => !(sidOf r == a)))).Sorted (· ≤ ·) := by
      unfold sidColumn
      exact List.Pairwise.sublist (List.Sublist.map sidOf (List.filter_sublist t)) hsorted
    have hstep : ∀ id ∈ u, t.filter (fun r => sidOf r == id)
        = (t.filter (fun r => !(sidOf r == a))).filter (fun r => sidOf r == id) := by
      intro id hid
      have hane : a ≠ id := ne_of_lt ((List.pairwise_cons.mp hpair).1 id hid)
      rw [List.filter_filter]
      apply List.filter_congr
      intro x _
      by_cases hx : sidOf x = id
      · simp [hx, Ne.symm hane]
      · simp [hx]
    rw [List.flatMap_cons]
    rw [flatMap_congr_mem u (fun id hid => hstep id hid)]
    rw [ih (t.filter (fun r => !(sidOf r == a)))
      (List.pairwise_cons.mp hpair).2 ht2mem ht2sorted]
    exact filter_append_not_of_min a t hsorted hmin

/-- C1 counterexample: on a table whose rows are not sorted by stream id
(first row id 20, second row id 10) the return-period rewrite does not keep
row order: the first output row is not the first input row with a value
appended, because the loop over the sorted unique id list writes the id-10
row first. -/
theorem claim1_counterexample :
    ¬ ∃ v : ℚ, (rpRows [(10 : Int), 20] [1, 2]
        [[0, 0, 0, 20, 0], [1, 0, 0, 10, 0]]).getD 0 []
      = appendFlow6 [0, 0, 0, 20, 0] v := by
  rintro ⟨v, h⟩
  have hL : (rpRows [(10 : Int), 20] [1, 2]
      [[0, 0, 0, 20, 0], [1, 0, 0, 10, 0]]).getD 0 [] = [1, 0, 0, 10, 0, 1] := by
    decide
  rw [hL] at h
  have h0 := congrArg (fun l => l.getD 0 (0 : ℚ)) h
  simp [appendFlow6] at h0

theorem pySliceStride_length (s : List ℚ) (start stop step : Nat) :
    (pySliceStride s start stop step).length
      = (min stop s.length - start + step - 1) / step := by
  unfold pySliceStride
  rw [List.length_map, List.length_range']

theorem pySliceStride_getD (s : List ℚ) (start stop step i : Nat)
    (hi : i < (min stop s.length - start + step - 1) / step) :
    (pySliceStride s start stop step).getD i 0 = s.getD (start + step * i) 0 := by
  have hlen : i < (pySliceStride s start stop step).length := by
    rw [pySliceStride_length]; exact hi
  rw [List.getD_eq_getElem _ _ hlen]
  unfold pySliceStride
  rw [List.getElem_map]
  congr 1
  rw [List.getElem_range']

/-- C3 (amended): the three-segment splice of a 125-sample control series
(samples 0 to 90 at stride 6, samples 90 to 109 at stride 2, samples from
109 unmodified) is applied only when first_half_size is not 65, i.e. only
when the first prediction file's sample count is neither 85 nor 125; the
spliced series then has the 15 + 10 + 16 = 41 samples stated.  (When
first_half_size is 65 the same 125-sample series takes the stride-3 branch
instead; see the counterexample.) -/
theorem claim3_amended_control_splice (firstHalfSize : Nat) (s : List ℚ)
    (hfhs : firstHalfSize ≠ 65) (hlen : s.length = 125) :
    spliceControl firstHalfSize s
      = pySliceStride s 0 90 6 ++ pySliceStride s 90 109 2 ++ s.drop 109 ∧
    (spliceControl firstHalfSize s).length = 41 ∧
    (∀ i, i < 15 → (spliceControl firstHalfSize s).getD i 0 = s.getD (6 * i) 0) ∧
    (∀ i, i < 10 →
      (spliceControl firstHalfSize s).getD (15 + i) 0 = s.getD (90 + 2 * i) 0) ∧
    (∀ i, i < 16 →
      (spliceControl firstHalfSize s).getD (25 + i) 0 = s.getD (109 + i) 0) := by
  have hmain : spliceControl firstHalfSize s
      = pySliceStride s 0 90 6 ++ pySliceStride s 90 109 2 ++ s.drop 109 := by
    unfold spliceControl
    rw [if_neg hfhs, if_pos hlen, List.append_assoc]
  have hlen1 : (pySliceStride s 0 90 6).length = 15 := by
    rw [pySliceStride_length, hlen]
    decide
  have hlen2 : (pySliceStride s 90 109 2).length = 10 := by
    rw [pySliceStride_length, hlen]
    decide
  have hlen3 : (s.drop 109).length = 16 := by
    rw [List.length_drop, hlen]
  refine ⟨hmain, ?_, ?_, ?_, ?_⟩
  · rw [hmain]
    simp [hlen1, hlen2, hlen3]
  · intro i hi
    rw [hmain, List.append_assoc, List.getD_append _ _ _ _ (by rw [hlen1]; exact hi)]
    rw [pySliceStride_getD s 0 90 6 i (by rw [hlen]; omega)]
    rw [Nat.zero_add]
  · intro i hi
    rw [hmain, List.append_assoc,
      List.getD_append_right _ _ _ _ (by rw [hlen1]; omega)]
    rw [hlen1]
    rw [List.getD_append _ _ _ _ (by rw [hlen2]; omega)]
    have : 15 + i - 15 = i := by omega
    rw [this, pySliceStride_getD s 90 109 2 i (by rw [hlen]; omega)]
  · intro i hi
    rw [hmain, List.append_assoc,
      List.getD_append_right _ _ _ _ (by rw [hlen1]; omega)]
    rw [hlen1]
    rw [List.getD_append_right _ _ _ _ (by rw [hlen2]; omega)]
    rw [hlen2]
    have h25 : 15 + i + 10 - 15 - 10 = i := by omega
    have : 25 + i - 15 - 10 = i := by omega
    rw [this]
    have hib : i < (s.drop 109).length := by rw [hlen3]; exact hi
    rw [List.getD_eq_getElem _ _ hib, List.getElem_drop,
      List.getD_eq_getElem _ _ (by rw [hlen]; omega)]

/-- Witness for claim3_amended_control_splice: first_half_size 41 (the value
chosen when the first file has 41 samples) with the 125-sample series
0, 1, ..., 124. -/
theorem claim3_amended_control_splice_witness :
    (41 : Nat) ≠ 65 ∧ (List.map (fun n : Nat => (n : ℚ)) (List.range 125)).length = 125 ∧
    (spliceControl 41 (List.map (fun n : Nat => (n : ℚ)) (List.range 125))
      = pySliceStride (List.map (fun n : Nat => (n : ℚ)) (List.range 125)) 0 90 6
        ++ pySliceStride (List.map (fun n : Nat => (n : ℚ)) (List.range 125)) 90 109 2
        ++ (List.map (fun n : Nat => (n : ℚ)) (List.range 125)).drop 109 ∧
    (spliceControl 41 (List.map (fun n : Nat => (n : ℚ)) (List.range 125))).length = 41 ∧
    (∀ i, i < 15 → (spliceControl 41 (List.map (fun n : Nat => (n : ℚ)) (List.range 125))).getD i 0
      = (List.map (fun n : Nat => (n : ℚ)) (List.range 125)).getD (6 * i) 0) ∧
    (∀ i, i < 10 →
      (spliceControl 41 (List.map (fun n : Nat => (n : ℚ)) (List.range 125))).getD (15 + i) 0
        = (List.map (fun n : Nat => (n : ℚ)) (List.range 125)).getD (90 + 2 * i) 0) ∧
    (∀ i, i < 16 →
      (spliceControl 41 (List.map (fun n : Nat => (n : ℚ)) (List.range 125))).getD (25 + i) 0
        = (List.map (fun n : Nat => (n : ℚ)) (List.range 125)).getD (109 + i) 0)) :=
  ⟨by decide, by rw [List.length_map, List.length_range],
   claim3_amended_control_splice 41 (List.map (fun n : Nat => (n : ℚ)) (List.range 125))
     (by decide) (by rw [List.length_map, List.length_range])⟩

set_option maxRecDepth 10000 in
/-- C3 counterexample: a 125-sample control series is not spliced into the
claimed three sub-segments when first_half_size is 65 -- and 65 is exactly
the value chosen when the first prediction file itself has 125 samples (the
homogeneous-ensemble case): the stride-3 branch fires first and yields a
65-sample series instead of the 41-sample three-segment concatenation. -/
theorem claim3_counterexample :
    firstHalfSizeOf 125 = 65 ∧
    spliceControl (firstHalfSizeOf 125) (List.replicate 125 (0 : ℚ))
      ≠ pySliceStride (List.replicate 125 (0 : ℚ)) 0 90 6
        ++ pySliceStride (List.replicate 125 (0 : ℚ)) 90 109 2
        ++ (List.replicate 125 (0 : ℚ)).drop 109 := by
  constructor
  · rfl
  · intro h
    have hlen := congrArg List.length h
    rw [show (spliceControl (firstHalfSizeOf 125) (List.replicate 125 (0 : ℚ))).length
        = 65 from by decide] at hlen
    rw [show (pySliceStride (List.replicate 125 (0 : ℚ)) 0 90 6
        ++ pySliceStride (List.replicate 125 (0 : ℚ)) 90 109 2
        ++ (List.replicate 125 (0 : ℚ)).drop 109).length = 41 from by decide] at hlen
    cases hlen

theorem matchRows_mem (t : List SIRow) (id : Int) (r : SIRow)
    (h : r ∈ matchRows t id) : r ∈ t ∧ sidOf r = id := by
  have := List.mem_filter.mp h
  exact ⟨this.1, by simpa using this.2⟩

theorem matchRows_self (t : List SIRow) (r : SIRow) (h : r ∈ t) :
    r ∈ matchRows t (sidOf r) :=
  List.mem_filter.mpr ⟨h, by simp⟩

theorem sidOf_appendFlow6 (r : SIRow) (v : ℚ) (h : 4 ≤ r.length) :
    sidOf (appendFlow6 r v) = sidOf r := by
  unfold sidOf appendFlow6
  congr 1
  rw [List.getD_append _ _ _ _ (by rw [List.length_take]; omega)]
  rw [List.getD_eq_getElem _ _ (by rw [List.length_take]; omega),
    List.getElem_take, List.getD_eq_getElem _ _ (by omega)]

theorem flowOf_appendFlow6 (r : SIRow) (v : ℚ) :
    flowOf (appendFlow6 r v) = some v := by
  unfold flowOf appendFlow6
  exact List.getLast?_concat _

theorem sidOf_appendSlope5 (r : SIRow) (v : ℚ) (h : 4 ≤ r.length) :
    sidOf (appendSlope5 r v) = sidOf r := by
  unfold sidOf appendSlope5
  congr 1
  rw [List.append_assoc,
    List.getD_append _ _ _ _ (by rw [List.length_take]; omega)]
  rw [List.getD_eq_getElem _ _ (by rw [List.length_take]; omega),
    List.getElem_take, List.getD_eq_getElem _ _ (by omega)]

theorem slopeOf_appendSlope5 (r : SIRow) (v : ℚ) (h : 5 ≤ r.length) :
    slopeOf (appendSlope5 r v) = v := by
  unfold slopeOf appendSlope5
  have h5 : (r.take 5).length = 5 := by rw [List.length_take]; omega
  rw [List.getD_append _ _ _ _ (by rw [List.length_append, h5]; simp)]
  rw [List.getD_append_right _ _ _ _ (by rw [h5])]
  rw [h5]
  simp

theorem dsFind_good (ds : Dataset) (hgood : ∀ p ∈ ds, p.2 ≠ []) (i : Int)
    (s : List ℚ) (h : dsFind ds i = some s) : s ≠ [] := by
  unfold dsFind at h
  cases hfind : ds.find? (fun p => p.1 == i) with
  | none => rw [hfind] at h; cases h
  | some p =>
    rw [hfind] at h
    cases h
    exact hgood p (List.mem_of_find?_eq_some hfind)

theorem batchAssign_ok_of_good (ds : Dataset) (batch : List Int)
    (hgood : ∀ i ∈ batch, ∀ s, dsFind ds i = some s → s ≠ []) :
    ∃ l, batchAssign ds batch = .ok l := by
  have hall : ∀ i ∈ batch.filter (fun i => (dsFind ds i).isSome),
      ∃ b, (peakMax ((dsFind ds i).getD [])).map (fun p => (i, p)) = .ok b := by
    intro i hi
    have hsome : (dsFind ds i).isSome := (List.mem_filter.mp hi).2
    obtain ⟨s, hs⟩ := Option.isSome_iff_exists.mp hsome
    obtain ⟨v, hv⟩ := peakMax_ok_of_ne s (hgood i (List.mem_filter.mp hi).1 s hs)
    exact ⟨(i, v), by rw [hs]; simp only [Option.getD_some, hv]; rfl⟩
  unfold batchAssign
  obtain ⟨vp, hvp⟩ := exMapM_ok_of_all
    (fun i => (peakMax ((dsFind ds i).getD [])).map (fun p => (i, p)))
    (batch.filter (fun i => (dsFind ds i).isSome)) hall
  exact ⟨_, by rw [hvp]⟩

theorem chunkedAssign_ok_of_good (ds : Dataset) (step : Nat) (ids : List Int)
    (hstep : 0 < step)
    (hgood : ∀ i ∈ ids, ∀ s, dsFind ds i = some s → s ≠ []) :
    ∃ L, chunkedAssign ds step ids = .ok L := by
  unfold chunkedAssign
  have hchunks : pyChunks step ids = .ok (chunkList step ids.length ids) := by
    unfold pyChunks
    rw [if_neg (Nat.pos_iff_ne_zero.mp hstep)]
  have hflat : (chunkList step ids.length ids).flatten = ids :=
    chunkList_flatten step hstep ids.length ids le_rfl
  have hallb : ∀ b ∈ chunkList step ids.length ids, ∃ l, batchAssign ds b = .ok l := by
    intro b hb
    refine batchAssign_ok_of_good ds b ?_
    intro i hi s hs
    refine hgood i ?_ s hs
    rw [← hflat]
    exact List.mem_flatten.mpr ⟨b, hb, hi⟩
  obtain ⟨ls, hls⟩ := exMapM_ok_of_all (batchAssign ds) (chunkList step ids.length ids) hallb
  refine ⟨ls.flatten, ?_⟩
  rw [hchunks]
  show (match exMapM (batchAssign ds) (chunkList step ids.length ids) with
    | Except.error e => (Except.error e : Except String (List (Int × ℚ)))
    | Except.ok ls2 => Except.ok ls2.flatten) = Except.ok ls.flatten
  rw [hls]

theorem rowsOfAssign_mem (table : List SIRow) (l : List (Int × ℚ)) (r : SIRow)
    (h : r ∈ rowsOfAssign table l) :
    ∃ p ∈ l, ∃ r0 ∈ table, sidOf r0 = p.1 ∧ r = appendFlow6 r0 p.2 := by
  obtain ⟨p, hp, hr⟩ := List.mem_flatMap.mp h
  obtain ⟨r0, hr0, rfl⟩ := List.mem_map.mp hr
  obtain ⟨hr0t, hsid⟩ := matchRows_mem table p.1 r0 hr0
  exact ⟨p, hp, r0, hr0t, hsid, rfl⟩

theorem flowBroadcast_mem (table : List SIRow) (valueOf : Int → ℚ) (r : SIRow)
    (h : r ∈ flowBroadcast table valueOf) :
    ∃ r0 ∈ table, r = appendFlow6 r0 (valueOf (sidOf r0)) := by
  obtain ⟨id, _, hr⟩ := List.mem_flatMap.mp h
  obtain ⟨r0, hr0, rfl⟩ := List.mem_map.mp hr
  obtain ⟨hr0t, hsid⟩ := matchRows_mem table id r0 hr0
  exact ⟨r0, hr0t, by rw [hsid]⟩

theorem flowBroadcast_covers (table : List SIRow) (valueOf : Int → ℚ) (r0 : SIRow)
    (h : r0 ∈ table) : appendFlow6 r0 (valueOf (sidOf r0)) ∈ flowBroadcast table valueOf := by
  unfold flowBroadcast
  refine List.mem_flatMap.mpr ⟨sidOf r0, ?_, ?_⟩
  · exact (npUnique_mem _ _).mpr (List.mem_map_of_mem sidOf h)
  · exact List.mem_map_of_mem _ (matchRows_self table r0 h)

theorem rpValueOf_missing (comids : List Int) (dat : List ℚ) (id : Int)
    (h : id ∉ comids) : rpValueOf comids dat id = 0 := by
  unfold rpValueOf
  have : comids.findIdx? (fun c => c == id) = none := by
    rw [List.findIdx?_eq_none_iff]
    intro c hc
    rw [beq_eq_false_iff_ne]
    intro hceq
    exact h (hceq ▸ hc)
  rw [this]

/-- C5: a stream id present in the Stream Index Table but absent from the
discharge source receives flow 0 on every one of its rows, and the operation
still succeeds and still emits rows for every other stream id -- both for the
single-run peak-flow extraction (missing ids are collected by the index
resolution and written with 0) and for the return-period lookup (the
IndexError of the failed exact match is caught and the value defaulted to 0). -/
theorem claim5_missing_id_defaults_zero (ds : Dataset) (step : Nat)
    (table : List SIRow) (id0 : Int) (comids : List Int) (dat : List ℚ)
    (hw : ∀ r ∈ table, 4 ≤ r.length) (hstep : 0 < step)
    (hid0 : id0 ∈ sidColumn table) (hmiss : dsFind ds id0 = none)
    (hgood : ∀ p ∈ ds, p.2 ≠ []) (hmiss2 : id0 ∉ comids) :
    (∃ rows, rapidRows ds step table = .ok rows ∧
      (∀ r ∈ rows, sidOf r = id0 → flowOf r = some 0) ∧
      (∀ id1 ∈ sidColumn table, ∃ r ∈ rows, sidOf r = id1)) ∧
    (∀ r ∈ rpRows comids dat table, sidOf r = id0 → flowOf r = some 0) ∧
    (∀ id1 ∈ sidColumn table, ∃ r ∈ rpRows comids dat table, sidOf r = id1) := by
  refine ⟨?_, ?_, ?_⟩
  · obtain ⟨L, hL⟩ := chunkedAssign_ok_of_good ds step (npUnique (sidColumn table))
      hstep (fun i _ s hs => dsFind_good ds hgood i s hs)
    have hne : ¬((npUnique (sidColumn table)).length = 0) := by
      intro hlen
      rw [List.length_eq_zero] at hlen
      rw [← npUnique_mem (sidColumn table) id0, hlen] at hid0
      exact List.not_mem_nil id0 hid0
    refine ⟨rowsOfAssign table L, ?_, ?_, ?_⟩
    · unfold rapidRows
      rw [if_neg hne, hL]
    · intro r hr hsid
      obtain ⟨p, hp, r0, hr0, hsid0, rfl⟩ := rowsOfAssign_mem table L r hr
      have hpeak := chunkedAssign_ok_pairs ds step _ L hL p hp
      rw [sidOf_appendFlow6 r0 p.2 (hw r0 hr0)] at hsid
      rw [← hsid0, hsid] at hpeak
      unfold peakVal at hpeak
      rw [hmiss] at hpeak
      have h02 : (Except.ok (0 : ℚ) : Except String ℚ) = .ok p.2 := hpeak
      have hp2 : p.2 = 0 := by
        injection h02 with h2
        exact h2.symm
      rw [hp2]
      exact flowOf_appendFlow6 r0 _
    · intro id1 hid1
      have hid1u : id1 ∈ npUnique (sidColumn table) := (npUnique_mem _ _).mpr hid1
      have hkey := chunkedAssign_ok_keys ds step _ L hstep hL id1 hid1u
      obtain ⟨p, hp, hp1⟩ := List.mem_map.mp hkey
      obtain ⟨r0, hr0t⟩ := List.mem_map.mp hid1
      refine ⟨appendFlow6 r0 p.2, ?_, ?_⟩
      · refine List.mem_flatMap.mpr ⟨p, hp, ?_⟩
        refine List.mem_map_of_mem _ ?_
        rw [hp1, ← hr0t.2]
        exact matchRows_self table r0 hr0t.1
      · rw [sidOf_appendFlow6 r0 p.2 (hw r0 hr0t.1)]
        exact hr0t.2
  · intro r hr hsid
    obtain ⟨r0, hr0, rfl⟩ := flowBroadcast_mem table _ r hr
    rw [sidOf_appendFlow6 r0 _ (hw r0 hr0)] at hsid
    rw [hsid, rpValueOf_missing comids dat id0 hmiss2]
    exact flowOf_appendFlow6 r0 _
  · intro id1 hid1
    obtain ⟨r0, hr0t⟩ := List.mem_map.mp hid1
    refine ⟨appendFlow6 r0 (rpValueOf comids dat (sidOf r0)), ?_, ?_⟩
    · exact flowBroadcast_covers table _ r0 hr0t.1
    · rw [sidOf_appendFlow6 r0 _ (hw r0 hr0t.1)]
      exact hr0t.2

/-- Witness for claim5_missing_id_defaults_zero: a two-row table with ids 10
and 20, a dataset holding only id 10 and a return-period file holding only
id 10, with id 20 missing from both. -/
theorem claim5_missing_id_defaults_zero_witness :
    (∃ rows, rapidRows [((10 : Int), [(3 : ℚ), 7])] 1
        [[0, 0, 0, 10, 0], [1, 0, 0, 20, 0]] = .ok rows ∧
      (∀ r ∈ rows, sidOf r = 20 → flowOf r = some 0) ∧
      (∀ id1 ∈ sidColumn [[0, 0, 0, 10, 0], [1, 0, 0, 20, 0]],
        ∃ r ∈ rows, sidOf r = id1)) ∧
    (∀ r ∈ rpRows [(10 : Int)] [(4 : ℚ)] [[0, 0, 0, 10, 0], [1, 0, 0, 20, 0]],
      sidOf r = 20 → flowOf r = some 0) ∧
    (∀ id1 ∈ sidColumn [[0, 0, 0, 10, 0], [1, 0, 0, 20, 0]],
      ∃ r ∈ rpRows [(10 : Int)] [(4 : ℚ)] [[0, 0, 0, 10, 0], [1, 0, 0, 20, 0]],
        sidOf r = id1) :=
  claim5_missing_id_defaults_zero [((10 : Int), [(3 : ℚ), 7])] 1
    [[0, 0, 0, 10, 0], [1, 0, 0, 20, 0]] 20 [(10 : Int)] [(4 : ℚ)]
    (by decide) (by decide) (by decide) (by decide) (by decide) (by decide)

theorem slopeRows_mem (features : List Feature) (table : List SIRow) (r : SIRow)
    (h : r ∈ slopeRows features table) :
    ∃ f ∈ features, ∃ r0 ∈ table, sidOf r0 = ratTrunc f.1 ∧ r = appendSlope5 r0 f.2 := by
  obtain ⟨f, hf, hr⟩ := List.mem_flatMap.mp h
  obtain ⟨r0, hr0, rfl⟩ := List.mem_map.mp hr
  obtain ⟨hr0t, hsid⟩ := matchRows_mem table _ r0 hr0
  exact ⟨f, hf, r0, hr0t, hsid, rfl⟩

theorem ensembleRows_mem (mx my : Method) (fb sb : List (List (List ℚ)))
    (table : List SIRow) (r : SIRow) (h : r ∈ ensembleRows mx my fb sb table) :
    ∃ p ∈ (npUnique (sidColumn table)).enum, ∃ r0 ∈ table, sidOf r0 = p.2 ∧
      r = appendFlow6 r0 (ensembleVal mx my (fb.getD p.1 []) (sb.getD p.1 [])) := by
  obtain ⟨p, hp, hr⟩ := List.mem_flatMap.mp h
  obtain ⟨r0, hr0, rfl⟩ := List.mem_map.mp hr
  obtain ⟨hr0t, hsid⟩ := matchRows_mem table _ r0 hr0
  exact ⟨p, hp, r0, hr0t, hsid, rfl⟩

theorem enum_snd_inj {l : List Int} (hnd : l.Nodup) {p1 p2 : Nat × Int}
    (h1 : p1 ∈ l.enum) (h2 : p2 ∈ l.enum) (heq : p1.2 = p2.2) : p1.1 = p2.1 := by
  obtain ⟨i1, a1⟩ := p1
  obtain ⟨i2, a2⟩ := p2
  simp only at heq
  subst heq
  have g1 := List.mk_mem_enum_iff_getElem?.mp h1
  have g2 := List.mk_mem_enum_iff_getElem?.mp h2
  obtain ⟨hb1, he1⟩ := List.getElem?_eq_some_iff.mp g1
  obtain ⟨hb2, he2⟩ := List.getElem?_eq_some_iff.mp g2
  show i1 = i2
  exact (@List.Nodup.getElem_inj_iff _ _ hnd i1 hb1 i2 hb2).mp (by rw [he1, he2])

theorem rapidRows_ok_inv (ds : Dataset) (step : Nat) (table : List SIRow)
    (rows : List SIRow) (h : rapidRows ds step table = .ok rows) :
    ∃ L, chunkedAssign ds step (npUnique (sidColumn table)) = .ok L ∧
      rows = rowsOfAssign table L := by
  unfold rapidRows at h
  by_cases hlen : (npUnique (sidColumn table)).length = 0
  · rw [if_pos hlen] at h
    cases h
  · rw [if_neg hlen] at h
    cases h1 : chunkedAssign ds step (npUnique (sidColumn table)) with
    | error e => rw [h1] at h; cases h
    | ok L =>
      rw [h1] at h
      cases h
      exact ⟨L, rfl, rfl⟩

/-- C7 (amended): in the three discharge-based operations every pair of
output rows sharing a stream id carries an identical injected flow value;
in the shapefile-based slope operation the same holds provided no two
features share the same truncated id value (with duplicate truncated ids the
matching rows are emitted once per feature, each time with that feature's
own slope; see the counterexample). -/
theorem claim7_amended_identical_value_per_id (table : List SIRow)
    (hw : ∀ r ∈ table, 5 ≤ r.length) :
    (∀ (valueOf : Int → ℚ), ∀ r1 ∈ flowBroadcast table valueOf,
      ∀ r2 ∈ flowBroadcast table valueOf,
        sidOf r1 = sidOf r2 → flowOf r1 = flowOf r2) ∧
    (∀ (mx my : Method) (fb sb : List (List (List ℚ))),
      ∀ r1 ∈ ensembleRows mx my fb sb table,
      ∀ r2 ∈ ensembleRows mx my fb sb table,
        sidOf r1 = sidOf r2 → flowOf r1 = flowOf r2) ∧
    (∀ (ds : Dataset) (step : Nat) (rows : List SIRow),
      rapidRows ds step table = .ok rows →
      ∀ r1 ∈ rows, ∀ r2 ∈ rows, sidOf r1 = sidOf r2 → flowOf r1 = flowOf r2) ∧
    (∀ (features : List Feature), (features.map (fun f => ratTrunc f.1)).Nodup →
      ∀ r1 ∈ slopeRows features table, ∀ r2 ∈ slopeRows features table,
        sidOf r1 = sidOf r2 → slopeOf r1 = slopeOf r2) := by
  have hw4 : ∀ r ∈ table, 4 ≤ r.length := fun r hr => le_trans (by omega) (hw r hr)
  refine ⟨?_, ?_, ?_, ?_⟩
  · intro valueOf r1 h1 r2 h2 hsid
    obtain ⟨r01, hr01, rfl⟩ := flowBroadcast_mem table valueOf r1 h1
    obtain ⟨r02, hr02, rfl⟩ := flowBroadcast_mem table valueOf r2 h2
    rw [sidOf_appendFlow6 r01 _ (hw4 r01 hr01),
      sidOf_appendFlow6 r02 _ (hw4 r02 hr02)] at hsid
    rw [flowOf_appendFlow6, flowOf_appendFlow6, hsid]
  · intro mx my fb sb r1 h1 r2 h2 hsid
    obtain ⟨p1, hp1, r01, hr01, hs1, rfl⟩ := ensembleRows_mem mx my fb sb table r1 h1
    obtain ⟨p2, hp2, r02, hr02, hs2, rfl⟩ := ensembleRows_mem mx my fb sb table r2 h2
    rw [sidOf_appendFlow6 r01 _ (hw4 r01 hr01),
      sidOf_appendFlow6 r02 _ (hw4 r02 hr02)] at hsid
    have hsnd : p1.2 = p2.2 := by rw [← hs1, ← hs2, hsid]
    have hfst : p1.1 = p2.1 :=
      enum_snd_inj (npUnique_nodup (sidColumn table)) hp1 hp2 hsnd
    rw [flowOf_appendFlow6, flowOf_appendFlow6, hfst]
  · intro ds step rows hok r1 h1 r2 h2 hsid
    obtain ⟨L, hL, rfl⟩ := rapidRows_ok_inv ds step table rows hok
    obtain ⟨p1, hp1, r01, hr01, hs1, rfl⟩ := rowsOfAssign_mem table L r1 h1
    obtain ⟨p2, hp2, r02, hr02, hs2, rfl⟩ := rowsOfAssign_mem table L r2 h2
    rw [sidOf_appendFlow6 r01 _ (hw4 r01 hr01),
      sidOf_appendFlow6 r02 _ (hw4 r02 hr02)] at hsid
    have hk1 := chunkedAssign_ok_pairs ds step _ L hL p1 hp1
    have hk2 := chunkedAssign_ok_pairs ds step _ L hL p2 hp2
    have hp12 : p1.1 = p2.1 := by rw [← hs1, ← hs2, hsid]
    rw [← hp12, hk1] at hk2
    have hv : p1.2 = p2.2 := by injection hk2 with h2
    rw [flowOf_appendFlow6, flowOf_appendFlow6, hv]
  · intro features hnd r1 h1 r2 h2 hsid
    obtain ⟨f1, hf1, r01, hr01, hs1, rfl⟩ := slopeRows_mem features table r1 h1
    obtain ⟨f2, hf2, r02, hr02, hs2, rfl⟩ := slopeRows_mem features table r2 h2
    rw [sidOf_appendSlope5 r01 _ (hw4 r01 hr01),
      sidOf_appendSlope5 r02 _ (hw4 r02 hr02)] at hsid
    have htr : ratTrunc f1.1 = ratTrunc f2.1 := by rw [← hs1, ← hs2, hsid]
    have hfeq : f1 = f2 :=
      List.inj_on_of_nodup_map hnd hf1 hf2 htr
    rw [slopeOf_appendSlope5 r01 _ (hw r01 hr01),
      slopeOf_appendSlope5 r02 _ (hw r02 hr02), hfeq]

/-- Witness for claim7_amended_identical_value_per_id: a two-row table whose
rows share stream id 5. -/
theorem claim7_amended_identical_value_per_id_witness :
    (∀ r ∈ ([[0, 0, 0, 5, 1], [1, 0, 0, 5, 2]] : List SIRow), 5 ≤ r.length) ∧
    (∀ (valueOf : Int → ℚ),
      ∀ r1 ∈ flowBroadcast [[0, 0, 0, 5, 1], [1, 0, 0, 5, 2]] valueOf,
      ∀ r2 ∈ flowBroadcast [[0, 0, 0, 5, 1], [1, 0, 0, 5, 2]] valueOf,
        sidOf r1 = sidOf r2 → flowOf r1 = flowOf r2) :=
  ⟨by decide,
   (claim7_amended_identical_value_per_id [[0, 0, 0, 5, 1], [1, 0, 0, 5, 2]]
     (by decide)).1⟩

/-- C7 counterexample: the slope operation does not give all rows of a stream
id an identical injected value when two shapefile features carry the same
(truncated) id with different slope values: the single table row with id 5 is
written twice, once with slope 10 and once with slope 20. -/
theorem claim7_counterexample :
    ∃ r1 ∈ slopeRows [((5 : ℚ), 10), ((5 : ℚ), 20)] [[1, 0, 0, 5, 4]],
    ∃ r2 ∈ slopeRows [((5 : ℚ), 10), ((5 : ℚ), 20)] [[1, 0, 0, 5, 4]],
      sidOf r1 = sidOf r2 ∧ slopeOf r1 ≠ slopeOf r2 := by
  refine ⟨[1, 0, 0, 5, 4, 10], ?_, [1, 0, 0, 5, 4, 20], ?_, by decide, by decide⟩
  · decide
  · decide

theorem getD_set_ne {β : Type} (l : List β) (i j : Nat) (x : β) (d : β)
    (h : i ≠ j) : (l.set i x).getD j d = l.getD j d := by
  rw [List.getD_eq_getElem?_getD, List.getD_eq_getElem?_getD, List.getElem?_set_ne h]

theorem getD_set_self {β : Type} (l : List β) (i : Nat) (x : β) (d : β)
    (h : i < l.length) : (l.set i x).getD i d = x := by
  rw [List.getD_eq_getElem?_getD, List.getElem?_set_self h]
  rfl

theorem setSlot_length (buf : List (List (List ℚ))) (c2 g : Nat) (v : List ℚ) :
    (setSlot buf c2 g v).length = buf.length := by
  unfold setSlot
  exact List.length_set _ _ _

theorem setSlot_row_ne (buf : List (List (List ℚ))) (c2 g : Nat) (v : List ℚ)
    (c : Nat) (h : c ≠ c2) : (setSlot buf c2 g v).getD c [] = buf.getD c [] := by
  unfold setSlot
  exact getD_set_ne _ _ _ _ _ (Ne.symm h)

theorem setSlot_row_length (buf : List (List (List ℚ))) (c2 g : Nat) (v : List ℚ)
    (c : Nat) : ((setSlot buf c2 g v).getD c []).length = (buf.getD c []).length := by
  by_cases hc : c = c2
  · subst hc
    by_cases hlt : c < buf.length
    · unfold setSlot
      rw [getD_set_self _ _ _ _ hlt, List.length_set]
    · unfold setSlot
      rw [List.getD_eq_default _ _ (by rw [List.length_set _ _ _]; omega),
        List.getD_eq_default _ _ (by omega)]
  · rw [setSlot_row_ne _ _ _ _ _ hc]

theorem setSlot_slot_ne (buf : List (List (List ℚ))) (c2 g : Nat) (v : List ℚ)
    (c f : Nat) (h : f ≠ g) :
    ((setSlot buf c2 g v).getD c []).getD f [] = (buf.getD c []).getD f [] := by
  by_cases hc : c = c2
  · subst hc
    by_cases hlt : c < buf.length
    · unfold setSlot
      rw [getD_set_self _ _ _ _ hlt, getD_set_ne _ _ _ _ _ (Ne.symm h)]
    · have h1 : (buf.set c ((buf.getD c []).set g v)).getD c ([] : List (List ℚ))
          = [] := List.getD_eq_default _ _ (by rw [List.length_set _ _ _]; omega)
      have h2 : buf.getD c ([] : List (List ℚ)) = [] :=
        List.getD_eq_default _ _ (by omega)
      unfold setSlot
      rw [h1, h2]
  · rw [setSlot_row_ne _ _ _ _ _ hc]

theorem setSlot_slot_self (buf : List (List (List ℚ))) (c2 g : Nat) (v : List ℚ)
    (hc : c2 < buf.length) (hg : g < (buf.getD c2 []).length) :
    ((setSlot buf c2 g v).getD c2 []).getD g [] = v := by
  unfold setSlot
  rw [getD_set_self _ _ _ _ hc, getD_set_self _ _ _ _ hg]

theorem storeComid_slot_ne (firstHalfSize fIdx eIdx : Nat) (series : List ℚ)
    (c2 : Nat) (b : Bufs) (c f : Nat) (h : f ≠ fIdx) :
    (((storeComid firstHalfSize fIdx eIdx series c2 b).1.1.getD c []).getD f []
      = (b.1.getD c []).getD f []) ∧
    (((storeComid firstHalfSize fIdx eIdx series c2 b).1.2.getD c []).getD f []
      = (b.2.getD c []).getD f []) := by
  unfold storeComid
  split_ifs <;>
    exact ⟨by first | rfl | exact setSlot_slot_ne _ _ _ _ _ _ h,
      by first | rfl | exact setSlot_slot_ne _ _ _ _ _ _ h⟩

theorem storeComid_row_ne (firstHalfSize fIdx eIdx : Nat) (series : List ℚ)
    (c2 : Nat) (b : Bufs) (c : Nat) (h : c ≠ c2) :
    ((storeComid firstHalfSize fIdx eIdx series c2 b).1.1.getD c []
      = b.1.getD c []) ∧
    ((storeComid firstHalfSize fIdx eIdx series c2 b).1.2.getD c []
      = b.2.getD c []) := by
  unfold storeComid
  split_ifs <;>
    exact ⟨by first | rfl | exact setSlot_row_ne _ _ _ _ _ h,
      by first | rfl | exact setSlot_row_ne _ _ _ _ _ h⟩

theorem storeComid_row_length (firstHalfSize fIdx eIdx : Nat) (series : List ℚ)
    (c2 : Nat) (b : Bufs) (c : Nat) :
    (((storeComid firstHalfSize fIdx eIdx series c2 b).1.1.getD c []).length
      = (b.1.getD c []).length) ∧
    (((storeComid firstHalfSize fIdx eIdx series c2 b).1.2.getD c []).length
      = (b.2.getD c []).length) := by
  unfold storeComid
  split_ifs <;>
    exact ⟨by first | rfl | exact setSlot_row_length _ _ _ _ _,
      by first | rfl | exact setSlot_row_length _ _ _ _ _⟩

theorem storeComid_buf_length (firstHalfSize fIdx eIdx : Nat) (series : List ℚ)
    (c2 : Nat) (b : Bufs) :
    ((storeComid firstHalfSize fIdx eIdx series c2 b).1.1.length = b.1.length) ∧
    ((storeComid firstHalfSize fIdx eIdx series c2 b).1.2.length = b.2.length) := by
  unfold storeComid
  split_ifs <;>
    exact ⟨by first | rfl | exact setSlot_length _ _ _ _,
      by first | rfl | exact setSlot_length _ _ _ _⟩

theorem fillComids_slot_ne (firstHalfSize fIdx eIdx : Nat) (dat : List (List ℚ))
    (f : Nat) (h : f ≠ fIdx) :
    ∀ (cs : List Nat) (b : Bufs) (c : Nat),
      (((fillComids firstHalfSize fIdx eIdx dat cs b).1.getD c []).getD f []
        = (b.1.getD c []).getD f []) ∧
      (((fillComids firstHalfSize fIdx eIdx dat cs b).2.getD c []).getD f []
        = (b.2.getD c []).getD f []) := by
  intro cs
  induction cs with
  | nil => intro b c; exact ⟨rfl, rfl⟩
  | cons c2 cs ih =>
    intro b c
    rw [show fillComids firstHalfSize fIdx eIdx dat (c2 :: cs) b
      = (match dat.get? c2 with
        | none => b
        | some series =>
          match storeComid firstHalfSize fIdx eIdx series c2 b with
          | (b2, true) => fillComids firstHalfSize fIdx eIdx dat cs b2
          | (b2, false) => b2) from rfl]
    cases hdat : dat.get? c2 with
    | none => exact ⟨rfl, rfl⟩
    | some series =>
      dsimp only
      cases hst : storeComid firstHalfSize fIdx eIdx series c2 b with
      | mk b2 flag =>
        have hpre := storeComid_slot_ne firstHalfSize fIdx eIdx series c2 b c f h
        rw [hst] at hpre
        cases flag with
        | true =>
          have hrec := ih b2 c
          exact ⟨hrec.1.trans hpre.1, hrec.2.trans hpre.2⟩
        | false => exact hpre

theorem fillComids_row_length (firstHalfSize fIdx eIdx : Nat) (dat : List (List ℚ)) :
    ∀ (cs : List Nat) (b : Bufs) (c : Nat),
      (((fillComids firstHalfSize fIdx eIdx dat cs b).1.getD c []).length
        = (b.1.getD c []).length) ∧
      (((fillComids firstHalfSize fIdx eIdx dat cs b).2.getD c []).length
        = (b.2.getD c []).length) := by
  intro cs
  induction cs with
  | nil => intro b c; exact ⟨rfl, rfl⟩
  | cons c2 cs ih =>
    intro b c
    rw [show fillComids firstHalfSize fIdx eIdx dat (c2 :: cs) b
      = (match dat.get? c2 with
        | none => b
        | some series =>
          match storeComid firstHalfSize fIdx eIdx series c2 b with
          | (b2, true) => fillComids firstHalfSize fIdx eIdx dat cs b2
          | (b2, false) => b2) from rfl]
    cases hdat : dat.get? c2 with
    | none => exact ⟨rfl, rfl⟩
    | some series =>
      dsimp only
      cases hst : storeComid firstHalfSize fIdx eIdx series c2 b with
      | mk b2 flag =>
        have hpre := storeComid_row_length firstHalfSize fIdx eIdx series c2 b c
        rw [hst] at hpre
        cases flag with
        | true =>
          have hrec := ih b2 c
          exact ⟨hrec.1.trans hpre.1, hrec.2.trans hpre.2⟩
        | false => exact hpre

theorem fillComids_buf_length (firstHalfSize fIdx eIdx : Nat) (dat : List (List ℚ)) :
    ∀ (cs : List Nat) (b : Bufs),
      ((fillComids firstHalfSize fIdx eIdx dat cs b).1.length = b.1.length) ∧
      ((fillComids firstHalfSize fIdx eIdx dat cs b).2.length = b.2.length) := by
  intro cs
  induction cs with
  | nil => intro b; exact ⟨rfl, rfl⟩
  | cons c2 cs ih =>
    intro b
    rw [show fillComids firstHalfSize fIdx eIdx dat (c2 :: cs) b
      = (match dat.get? c2 with
        | none => b
        | some series =>
          match storeComid firstHalfSize fIdx eIdx series c2 b with
          | (b2, true) => fillComids firstHalfSize fIdx eIdx dat cs b2
          | (b2, false) => b2) from rfl]
    cases hdat : dat.get? c2 with
    | none => exact ⟨rfl, rfl⟩
    | some series =>
      dsimp only
      cases hst : storeComid firstHalfSize fIdx eIdx series c2 b with
      | mk b2 flag =>
        have hpre := storeComid_buf_length firstHalfSize fIdx eIdx series c2 b
        rw [hst] at hpre
        cases flag with
        | true =>
          have hrec := ih b2
          exact ⟨hrec.1.trans hpre.1, hrec.2.trans hpre.2⟩
        | false => exact hpre

theorem fillComids_row_notmem (firstHalfSize fIdx eIdx : Nat) (dat : List (List ℚ)) :
    ∀ (cs : List Nat) (b : Bufs) (c : Nat), c ∉ cs →
      ((fillComids firstHalfSize fIdx eIdx dat cs b).1.getD c [] = b.1.getD c []) ∧
      ((fillComids firstHalfSize fIdx eIdx dat cs b).2.getD c [] = b.2.getD c []) := by
  intro cs
  induction cs with
  | nil => intro b c _; exact ⟨rfl, rfl⟩
  | cons c2 cs ih =>
    intro b c hc
    have hne : c ≠ c2 := fun he => hc (he ▸ List.mem_cons_self c2 cs)
    have hrest : c ∉ cs := fun hm => hc (List.mem_cons_of_mem c2 hm)
    rw [show fillComids firstHalfSize fIdx eIdx dat (c2 :: cs) b
      = (match dat.get? c2 with
        | none => b
        | some series =>
          match storeComid firstHalfSize fIdx eIdx series c2 b with
          | (b2, true) => fillComids firstHalfSize fIdx eIdx dat cs b2
          | (b2, false) => b2) from rfl]
    cases hdat : dat.get? c2 with
    | none => exact ⟨rfl, rfl⟩
    | some series =>
      dsimp only
      cases hst : storeComid firstHalfSize fIdx eIdx series c2 b with
      | mk b2 flag =>
        have hpre := storeComid_row_ne firstHalfSize fIdx eIdx series c2 b c hne
        rw [hst] at hpre
        cases flag with
        | true =>
          have hrec := ih b2 c hrest
          exact ⟨hrec.1.trans hpre.1, hrec.2.trans hpre.2⟩
        | false => exact hpre

theorem fillComids_writes (firstHalfSize fIdx eIdx : Nat) (dat : List (List ℚ))
    (heidx : eIdx < 52) (hshape : ∀ s ∈ dat, s.length = firstHalfSize + 20) :
    ∀ (cs : List Nat) (b : Bufs) (c : Nat), cs.Nodup → c ∈ cs →
      (∀ c2 ∈ cs, c2 < dat.length) → c < b.1.length → c < b.2.length →
      fIdx < (b.1.getD c []).length → fIdx < (b.2.getD c []).length →
      (((fillComids firstHalfSize fIdx eIdx dat cs b).1.getD c []).getD fIdx []
        = (dat.getD c []).take firstHalfSize) ∧
      (((fillComids firstHalfSize fIdx eIdx dat cs b).2.getD c []).getD fIdx []
        = (dat.getD c []).drop firstHalfSize) := by
  intro cs
  induction cs with
  | nil => intro b c _ hc; cases hc
  | cons c2 cs ih =>
    intro b c hnd hc hall hb1 hb2 hr1 hr2
    have hc2d : c2 < dat.length := hall c2 (List.mem_cons_self c2 cs)
    have hdat : dat.get? c2 = some dat[c2] := by
      rw [List.get?_eq_getElem?]
      exact List.getElem?_eq_getElem hc2d
    have hser : dat[c2].length = firstHalfSize + 20 :=
      hshape dat[c2] (List.getElem_mem hc2d)
    have htake : (dat[c2].take firstHalfSize).length = firstHalfSize := by
      rw [List.length_take, hser]; omega
    have hdrop : (dat[c2].drop firstHalfSize).length = 20 := by
      rw [List.length_drop, hser]; omega
    have hst : storeComid firstHalfSize fIdx eIdx dat[c2] c2 b
        = ((setSlot b.1 c2 fIdx (dat[c2].take firstHalfSize),
            setSlot b.2 c2 fIdx (dat[c2].drop firstHalfSize)), true) := by
      unfold storeComid
      rw [if_pos heidx, if_pos htake, if_pos hdrop]
    rw [show fillComids firstHalfSize fIdx eIdx dat (c2 :: cs) b
      = (match dat.get? c2 with
        | none => b
        | some series =>
          match storeComid firstHalfSize fIdx eIdx series c2 b with
          | (b2, true) => fillComids firstHalfSize fIdx eIdx dat cs b2
          | (b2, false) => b2) from rfl]
    rw [hdat]
    dsimp only
    rw [hst]
    dsimp only
    by_cases hcc : c = c2
    · subst hcc
      have hnotmem : c ∉ cs := (List.nodup_cons.mp hnd).1
      have hrows := fillComids_row_notmem firstHalfSize fIdx eIdx dat cs
        (setSlot b.1 c fIdx (dat[c].take firstHalfSize),
         setSlot b.2 c fIdx (dat[c].drop firstHalfSize)) c hnotmem
      have hgetc : dat.getD c [] = dat[c] := List.getD_eq_getElem dat [] hc2d
      constructor
      · rw [hrows.1]
        dsimp only
        rw [setSlot_slot_self b.1 c fIdx _ hb1 hr1, hgetc]
      · rw [hrows.2]
        dsimp only
        rw [setSlot_slot_self b.2 c fIdx _ hb2 hr2, hgetc]
    · have hcs : c ∈ cs := by
        rcases List.mem_cons.mp hc with h | h
        · exact absurd h hcc
        · exact h
      refine ih (setSlot b.1 c2 fIdx (dat[c2].take firstHalfSize),
          setSlot b.2 c2 fIdx (dat[c2].drop firstHalfSize)) c
        (List.nodup_cons.mp hnd).2 hcs
        (fun c3 h3 => hall c3 (List.mem_cons_of_mem c2 h3)) ?_ ?_ ?_ ?_
      · show c < (setSlot b.1 c2 fIdx _).length
        rw [setSlot_length]; exact hb1
      · show c < (setSlot b.2 c2 fIdx _).length
        rw [setSlot_length]; exact hb2
      · show fIdx < ((setSlot b.1 c2 fIdx _).getD c []).length
        rw [setSlot_row_length]; exact hr1
      · show fIdx < ((setSlot b.2 c2 fIdx _).getD c []).length
        rw [setSlot_row_length]; exact hr2

theorem getD_replicate_lt {β : Type} (n i : Nat) (x d : β) (h : i < n) :
    (List.replicate n x).getD i d = x := by
  rw [List.getD_eq_getElem?_getD, List.getElem?_replicate_of_lt h]
  rfl

theorem processFile_slot_ne (firstHalfSize nC : Nat) (b : Bufs) (fIdx : Nat)
    (read : Except String (Nat × List (List ℚ))) (c f : Nat)
    (h : f ≠ fIdx ∨ ∃ m, read = .error m) :
    (((processFile firstHalfSize nC b fIdx read).1.getD c []).getD f []
      = (b.1.getD c []).getD f []) ∧
    (((processFile firstHalfSize nC b fIdx read).2.getD c []).getD f []
      = (b.2.getD c []).getD f []) := by
  cases read with
  | error m => exact ⟨rfl, rfl⟩
  | ok pr =>
    have hne : f ≠ fIdx := by
      rcases h with h | ⟨m, hm⟩
      · exact h
      · cases hm
    obtain ⟨eIdx, dat⟩ := pr
    show (((if 0 < dat.length then
        fillComids firstHalfSize fIdx eIdx dat (List.range nC) b else b).1.getD c []).getD f []
      = (b.1.getD c []).getD f []) ∧
      (((if 0 < dat.length then
        fillComids firstHalfSize fIdx eIdx dat (List.range nC) b else b).2.getD c []).getD f []
      = (b.2.getD c []).getD f [])
    by_cases hdl : 0 < dat.length
    · rw [if_pos hdl]
      exact fillComids_slot_ne firstHalfSize fIdx eIdx dat f hne (List.range nC) b c
    · rw [if_neg hdl]
      exact ⟨rfl, rfl⟩

theorem processFile_row_length (firstHalfSize nC : Nat) (b : Bufs) (fIdx : Nat)
    (read : Except String (Nat × List (List ℚ))) (c : Nat) :
    (((processFile firstHalfSize nC b fIdx read).1.getD c []).length
      = (b.1.getD c []).length) ∧
    (((processFile firstHalfSize nC b fIdx read).2.getD c []).length
      = (b.2.getD c []).length) := by
  cases read with
  | error m => exact ⟨rfl, rfl⟩
  | ok pr =>
    obtain ⟨eIdx, dat⟩ := pr
    show (((if 0 < dat.length then
        fillComids firstHalfSize fIdx eIdx dat (List.range nC) b else b).1.getD c []).length
      = (b.1.getD c []).length) ∧
      (((if 0 < dat.length then
        fillComids firstHalfSize fIdx eIdx dat (List.range nC) b else b).2.getD c []).length
      = (b.2.getD c []).length)
    by_cases hdl : 0 < dat.length
    · rw [if_pos hdl]
      exact fillComids_row_length firstHalfSize fIdx eIdx dat (List.range nC) b c
    · rw [if_neg hdl]
      exact ⟨rfl, rfl⟩

theorem processFile_buf_length (firstHalfSize nC : Nat) (b : Bufs) (fIdx : Nat)
    (read : Except String (Nat × List (List ℚ))) :
    ((processFile firstHalfSize nC b fIdx read).1.length = b.1.length) ∧
    ((processFile firstHalfSize nC b fIdx read).2.length = b.2.length) := by
  cases read with
  | error m => exact ⟨rfl, rfl⟩
  | ok pr =>
    obtain ⟨eIdx, dat⟩ := pr
    show ((if 0 < dat.length then
        fillComids firstHalfSize fIdx eIdx dat (List.range nC) b else b).1.length
      = b.1.length) ∧
      ((if 0 < dat.length then
        fillComids firstHalfSize fIdx eIdx dat (List.range nC) b else b).2.length
      = b.2.length)
    by_cases hdl : 0 < dat.length
    · rw [if_pos hdl]
      exact fillComids_buf_length firstHalfSize fIdx eIdx dat (List.range nC) b
    · rw [if_neg hdl]
      exact ⟨rfl, rfl⟩

theorem processFile_writes (firstHalfSize nC : Nat) (b : Bufs) (fIdx eIdx : Nat)
    (dat : List (List ℚ)) (c : Nat) (heidx : eIdx < 52)
    (hshape : ∀ s ∈ dat, s.length = firstHalfSize + 20) (hdl : dat.length = nC)
    (hc : c < nC) (hb1 : c < b.1.length) (hb2 : c < b.2.length)
    (hr1 : fIdx < (b.1.getD c []).length) (hr2 : fIdx < (b.2.getD c []).length) :
    (((processFile firstHalfSize nC b fIdx (.ok (eIdx, dat))).1.getD c []).getD fIdx []
      = (dat.getD c []).take firstHalfSize) ∧
    (((processFile firstHalfSize nC b fIdx (.ok (eIdx, dat))).2.getD c []).getD fIdx []
      = (dat.getD c []).drop firstHalfSize) := by
  have hpos : 0 < dat.length := by omega
  show (((if 0 < dat.length then
      fillComids firstHalfSize fIdx eIdx dat (List.range nC) b else b).1.getD c []).getD fIdx []
    = (dat.getD c []).take firstHalfSize) ∧
    (((if 0 < dat.length then
      fillComids firstHalfSize fIdx eIdx dat (List.range nC) b else b).2.getD c []).getD fIdx []
    = (dat.getD c []).drop firstHalfSize)
  rw [if_pos hpos]
  exact fillComids_writes firstHalfSize fIdx eIdx dat heidx hshape (List.range nC) b c
    (List.nodup_range nC) (List.mem_range.mpr hc)
    (fun c2 h2 => by rw [hdl]; exact List.mem_range.mp h2) hb1 hb2 hr1 hr2

theorem foldl_slot_pres (firstHalfSize nC f : Nat) :
    ∀ (l : List (Nat × Except String (Nat × List (List ℚ)))) (b : Bufs) (c : Nat),
      (∀ p ∈ l, p.1 ≠ f ∨ ∃ m, p.2 = .error m) →
      (((l.foldl (fun b p => processFile firstHalfSize nC b p.1 p.2) b).1.getD c []).getD f []
        = (b.1.getD c []).getD f []) ∧
      (((l.foldl (fun b p => processFile firstHalfSize nC b p.1 p.2) b).2.getD c []).getD f []
        = (b.2.getD c []).getD f []) := by
  intro l
  induction l with
  | nil => intro b c _; exact ⟨rfl, rfl⟩
  | cons p l ih =>
    intro b c h
    rw [List.foldl_cons]
    have hstep := processFile_slot_ne firstHalfSize nC b p.1 p.2 c f
      (by rcases h p (List.mem_cons_self p l) with h1 | h1
          exacts [Or.inl (Ne.symm h1), Or.inr h1])
    have hrec := ih (processFile firstHalfSize nC b p.1 p.2) c
      (fun q hq => h q (List.mem_cons_of_mem p hq))
    exact ⟨hrec.1.trans hstep.1, hrec.2.trans hstep.2⟩

theorem foldl_row_length (firstHalfSize nC : Nat) :
    ∀ (l : List (Nat × Except String (Nat × List (List ℚ)))) (b : Bufs) (c : Nat),
      (((l.foldl (fun b p => processFile firstHalfSize nC b p.1 p.2) b).1.getD c []).length
        = (b.1.getD c []).length) ∧
      (((l.foldl (fun b p => processFile firstHalfSize nC b p.1 p.2) b).2.getD c []).length
        = (b.2.getD c []).length) := by
  intro l
  induction l with
  | nil => intro b c; exact ⟨rfl, rfl⟩
  | cons p l ih =>
    intro b c
    rw [List.foldl_cons]
    have hstep := processFile_row_length firstHalfSize nC b p.1 p.2 c
    have hrec := ih (processFile firstHalfSize nC b p.1 p.2) c
    exact ⟨hrec.1.trans hstep.1, hrec.2.trans hstep.2⟩

theorem foldl_buf_length (firstHalfSize nC : Nat) :
    ∀ (l : List (Nat × Except String (Nat × List (List ℚ)))) (b : Bufs),
      ((l.foldl (fun b p => processFile firstHalfSize nC b p.1 p.2) b).1.length
        = b.1.length) ∧
      ((l.foldl (fun b p => processFile firstHalfSize nC b p.1 p.2) b).2.length
        = b.2.length) := by
  intro l
  induction l with
  | nil => intro b; exact ⟨rfl, rfl⟩
  | cons p l ih =>
    intro b
    rw [List.foldl_cons]
    have hstep := processFile_buf_length firstHalfSize nC b p.1 p.2
    have hrec := ih (processFile firstHalfSize nC b p.1 p.2)
    exact ⟨hrec.1.trans hstep.1, hrec.2.trans hstep.2⟩

theorem foldl_writes (firstHalfSize nC g eIdx : Nat) (dat : List (List ℚ)) (c : Nat)
    (heidx : eIdx < 52) (hshape : ∀ s ∈ dat, s.length = firstHalfSize + 20)
    (hdl : dat.length = nC) (hc : c < nC) :
    ∀ (l : List (Nat × Except String (Nat × List (List ℚ)))) (b : Bufs),
      (g, Except.ok (eIdx, dat)) ∈ l → (l.map Prod.fst).Nodup →
      c < b.1.length → c < b.2.length →
      g < (b.1.getD c []).length → g < (b.2.getD c []).length →
      (((l.foldl (fun b p => processFile firstHalfSize nC b p.1 p.2) b).1.getD c []).getD g []
        = (dat.getD c []).take firstHalfSize) ∧
      (((l.foldl (fun b p => processFile firstHalfSize nC b p.1 p.2) b).2.getD c []).getD g []
        = (dat.getD c []).drop firstHalfSize) := by
  intro l
  induction l with
  | nil => intro b hm; cases hm
  | cons p l ih =>
    intro b hm hnd hb1 hb2 hr1 hr2
    rw [List.foldl_cons]
    rcases List.mem_cons.mp hm with heq | hmem
    · subst heq
      have hkey : ∀ q ∈ l, q.1 ≠ g := by
        intro q hq hqg
        have : g ∈ l.map Prod.fst := hqg ▸ List.mem_map_of_mem Prod.fst hq
        rw [List.map_cons] at hnd
        exact (List.nodup_cons.mp hnd).1 this
      have hwrite := processFile_writes firstHalfSize nC b g eIdx dat c heidx
        hshape hdl hc hb1 hb2 hr1 hr2
      have hpres := foldl_slot_pres firstHalfSize nC g l
        (processFile firstHalfSize nC b g (.ok (eIdx, dat))) c
        (fun q hq => Or.inl (hkey q hq))
      exact ⟨hpres.1.trans hwrite.1, hpres.2.trans hwrite.2⟩
    · rw [List.map_cons] at hnd
      have hstepb := processFile_buf_length firstHalfSize nC b p.1 p.2
      have hstepr := processFile_row_length firstHalfSize nC b p.1 p.2 c
      exact ih (processFile firstHalfSize nC b p.1 p.2) hmem
        (List.nodup_cons.mp hnd).2
        (by rw [hstepb.1]; exact hb1) (by rw [hstepb.2]; exact hb2)
        (by rw [hstepr.1]; exact hr1) (by rw [hstepr.2]; exact hr2)

theorem column_length (M : List (List ℚ)) (t : Nat) :
    (column M t).length = M.length := by
  unfold column
  exact List.length_map _ _

theorem meanAxis0_getD_eq (M : List (List ℚ)) (t : Nat)
    (ht : t < (M.headD []).length) :
    (meanAxis0 M).getD t 0 = (column M t).sum / ((M.length : ℚ)) := by
  unfold meanAxis0
  rw [List.getD_eq_getElem _ _ (by rw [List.length_map, List.length_range]; exact ht)]
  rw [List.getElem_map, List.getElem_range]
  unfold npMean1
  rw [column_length]

/-- C10: when reading one prediction file raises, the exception is caught
and the extraction continues: the failed file's slots in both accumulation
buffers keep their initial all-zero value, every comid's file axis still has
one entry per prediction file (so the zero slots are among the members the
axis-0 statistics are computed over, with the mean's denominator equal to
the full file count), and any file that reads successfully still has its
data stored in its own slots. -/
theorem claim10_failed_member_slots_zero
    (reads : List (Except String (Nat × List (List ℚ))))
    (firstHalfSize nC f c : Nat) (msg : String)
    (hf : reads[f]? = some (.error msg)) (hc : c < nC) :
    (((fillBuffers firstHalfSize nC reads).1.getD c []).getD f []
      = List.replicate firstHalfSize 0) ∧
    (((fillBuffers firstHalfSize nC reads).2.getD c []).getD f []
      = List.replicate 20 0) ∧
    ((fillBuffers firstHalfSize nC reads).1.getD c []).length = reads.length ∧
    ((fillBuffers firstHalfSize nC reads).2.getD c []).length = reads.length ∧
    (∀ t, t < (((fillBuffers firstHalfSize nC reads).1.getD c []).headD []).length →
      (column ((fillBuffers firstHalfSize nC reads).1.getD c []) t).length
        = reads.length ∧
      (meanAxis0 ((fillBuffers firstHalfSize nC reads).1.getD c [])).getD t 0
        = (column ((fillBuffers firstHalfSize nC reads).1.getD c []) t).sum
          / ((reads.length : ℚ))) ∧
    (∀ (g eIdx : Nat) (dat : List (List ℚ)),
      reads[g]? = some (.ok (eIdx, dat)) → eIdx < 52 → dat.length = nC →
      (∀ s ∈ dat, s.length = firstHalfSize + 20) →
      (((fillBuffers firstHalfSize nC reads).1.getD c []).getD g []
        = (dat.getD c []).take firstHalfSize) ∧
      (((fillBuffers firstHalfSize nC reads).2.getD c []).getD g []
        = (dat.getD c []).drop firstHalfSize)) := by
  have hfl : f < reads.length := (List.getElem?_eq_some_iff.mp hf).1
  have hinit1 : ((initBufs nC reads.length firstHalfSize).1.getD c []).getD f []
      = List.replicate firstHalfSize 0 := by
    unfold initBufs
    rw [getD_replicate_lt _ _ _ _ hc, getD_replicate_lt _ _ _ _ hfl]
  have hinit2 : ((initBufs nC reads.length firstHalfSize).2.getD c []).getD f []
      = List.replicate 20 0 := by
    unfold initBufs
    rw [getD_replicate_lt _ _ _ _ hc, getD_replicate_lt _ _ _ _ hfl]
  have hinitr1 : ((initBufs nC reads.length firstHalfSize).1.getD c []).length
      = reads.length := by
    unfold initBufs
    rw [getD_replicate_lt _ _ _ _ hc, List.length_replicate]
  have hinitr2 : ((initBufs nC reads.length firstHalfSize).2.getD c []).length
      = reads.length := by
    unfold initBufs
    rw [getD_replicate_lt _ _ _ _ hc, List.length_replicate]
  have hinitb1 : c < (initBufs nC reads.length firstHalfSize).1.length := by
    unfold initBufs
    rw [List.length_replicate]
    exact hc
  have hinitb2 : c < (initBufs nC reads.length firstHalfSize).2.length := by
    unfold initBufs
    rw [List.length_replicate]
    exact hc
  have hcond : ∀ p ∈ reads.enum, p.1 ≠ f ∨ ∃ m, p.2 = Except.error m := by
    intro p hp
    by_cases hpf : p.1 = f
    · refine Or.inr ⟨msg, ?_⟩
      obtain ⟨i, a⟩ := p
      have := List.mk_mem_enum_iff_getElem?.mp hp
      simp only at hpf
      subst hpf
      rw [hf] at this
      exact (Option.some_inj.mp this).symm
    · exact Or.inl hpf
  have hpres := foldl_slot_pres firstHalfSize nC f reads.enum
    (initBufs nC reads.length firstHalfSize) c hcond
  have hrowlen := foldl_row_length firstHalfSize nC reads.enum
    (initBufs nC reads.length firstHalfSize) c
  refine ⟨?_, ?_, ?_, ?_, ?_, ?_⟩
  · exact (show _ from hpres.1).trans hinit1
  · exact (show _ from hpres.2).trans hinit2
  · exact (show _ from hrowlen.1).trans hinitr1
  · exact (show _ from hrowlen.2).trans hinitr2
  · intro t ht
    refine ⟨(column_length _ t).trans ((show _ from hrowlen.1).trans hinitr1), ?_⟩
    rw [meanAxis0_getD_eq _ t ht]
    rw [show ((fillBuffers firstHalfSize nC reads).1.getD c []).length
      = reads.length from (show _ from hrowlen.1).trans hinitr1]
  · intro g eIdx dat hg heidx hdl hshape
    have hgl : g < reads.length := (List.getElem?_eq_some_iff.mp hg).1
    have hmemg : (g, Except.ok (eIdx, dat)) ∈ reads.enum :=
      List.mk_mem_enum_iff_getElem?.mpr hg
    have hkeys : (reads.enum.map Prod.fst).Nodup := by
      rw [List.enum_map_fst]
      exact List.nodup_range _
    exact foldl_writes firstHalfSize nC g eIdx dat c heidx hshape hdl hc
      reads.enum (initBufs nC reads.length firstHalfSize) hmemg hkeys
      hinitb1 hinitb2 (by rw [hinitr1]; exact hgl) (by rw [hinitr2]; exact hgl)

/-- Witness for claim10_failed_member_slots_zero: two prediction files, the
first failing to read and the second (ensemble member 0) holding one comid's
21-sample series, with first_half_size 1. -/
theorem claim10_failed_member_slots_zero_witness :
    (((fillBuffers 1 1 [Except.error "boom",
        Except.ok (0, [List.replicate 21 (2 : ℚ)])]).1.getD 0 []).getD 0 []
      = List.replicate 1 0) ∧
    (((fillBuffers 1 1 [Except.error "boom",
        Except.ok (0, [List.replicate 21 (2 : ℚ)])]).2.getD 0 []).getD 0 []
      = List.replicate 20 0) ∧
    ((fillBuffers 1 1 [Except.error "boom",
        Except.ok (0, [List.replicate 21 (2 : ℚ)])]).1.getD 0 []).length = 2 ∧
    ((fillBuffers 1 1 [Except.error "boom",
        Except.ok (0, [List.replicate 21 (2 : ℚ)])]).2.getD 0 []).length = 2 ∧
    (∀ t, t < (((fillBuffers 1 1 [Except.error "boom",
          Except.ok (0, [List.replicate 21 (2 : ℚ)])]).1.getD 0 []).headD []).length →
      (column ((fillBuffers 1 1 [Except.error "boom",
          Except.ok (0, [List.replicate 21 (2 : ℚ)])]).1.getD 0 []) t).length = 2 ∧
      (meanAxis0 ((fillBuffers 1 1 [Except.error "boom",
          Except.ok (0, [List.replicate 21 (2 : ℚ)])]).1.getD 0 [])).getD t 0
        = (column ((fillBuffers 1 1 [Except.error "boom",
            Except.ok (0, [List.replicate 21 (2 : ℚ)])]).1.getD 0 []) t).sum
          / (((2 : Nat) : ℚ))) ∧
    (∀ (g eIdx : Nat) (dat : List (List ℚ)),
      ([Except.error "boom", Except.ok (0, [List.replicate 21 (2 : ℚ)])]
        : List (Except String (Nat × List (List ℚ))))[g]?
          = some (.ok (eIdx, dat)) →
      eIdx < 52 → dat.length = 1 → (∀ s ∈ dat, s.length = 1 + 20) →
      (((fillBuffers 1 1 [Except.error "boom",
          Except.ok (0, [List.replicate 21 (2 : ℚ)])]).1.getD 0 []).getD g []
        = (dat.getD 0 []).take 1) ∧
      (((fillBuffers 1 1 [Except.error "boom",
          Except.ok (0, [List.replicate 21 (2 : ℚ)])]).2.getD 0 []).getD g []
        = (dat.getD 0 []).drop 1)) :=
  claim10_failed_member_slots_zero
    [Except.error "boom", Except.ok (0, [List.replicate 21 (2 : ℚ)])]
    1 1 0 0 "boom" rfl (by decide)

theorem indexOf_of_getElem_some :
    ∀ (l : List Int), l.Nodup → ∀ (i : Nat) (a : Int), l[i]? = some a →
      l.indexOf a = i := by
  intro l
  induction l with
  | nil =>
    intro _ i a h
    rw [List.getElem?_nil] at h
    cases h
  | cons x xs ih =>
    intro hnd i a h
    cases i with
    | zero =>
      rw [List.getElem?_cons_zero] at h
      cases h
      exact List.indexOf_cons_self x xs
    | succ i =>
      rw [List.getElem?_cons_succ] at h
      have hmem : a ∈ xs := List.getElem?_mem h
      have hxa : x ≠ a := fun he => (List.nodup_cons.mp hnd).1 (he ▸ hmem)
      rw [List.indexOf_cons_ne xs hxa, ih (List.nodup_cons.mp hnd).2 i a h]

theorem enum_flatMap_indexOf {β : Type} (l : List Int) (hnd : l.Nodup)
    (F : Nat × Int → List β) :
    l.enum.flatMap F = l.flatMap (fun a => F (l.indexOf a, a)) := by
  have h1 : l.enum.flatMap F
      = l.enum.flatMap (fun p => F (l.indexOf p.2, p.2)) := by
    refine flatMap_congr_mem _ ?_
    intro p hp
    obtain ⟨i, a⟩ := p
    have hg := List.mk_mem_enum_iff_getElem?.mp hp
    rw [show (i, a).2 = a from rfl, indexOf_of_getElem_some l hnd i a hg]
  have h2 : l.enum.flatMap (fun p => F (l.indexOf p.2, p.2))
      = (l.enum.map Prod.snd).flatMap (fun a => F (l.indexOf a, a)) := by
    rw [List.flatMap_map]
  rw [h1, h2, List.enum_map_snd]

theorem exMapM_eq_map (f : α → Except String β) (g : α → β) :
    ∀ (l : List α), (∀ a ∈ l, f a = .ok (g a)) → exMapM f l = .ok (l.map g) := by
  intro l
  induction l with
  | nil => intro _; rfl
  | cons a l ih =>
    intro h
    rw [exMapM, h a (List.mem_cons_self a l),
      ih (fun b hb => h b (List.mem_cons_of_mem a hb))]
    rfl

theorem batchAssign_all_valid (ds : Dataset) (b : List Int)
    (hvalid : ∀ id ∈ b, (dsFind ds id).isSome) (hgood : ∀ p ∈ ds, p.2 ≠ []) :
    batchAssign ds b = .ok (b.map (fun id => (id, assignedPeak ds id))) := by
  have hf1 : b.filter (fun id => (dsFind ds id).isSome) = b :=
    List.filter_eq_self.mpr (fun id h => hvalid id h)
  have hf2 : b.filter (fun id => (dsFind ds id).isNone) = [] := by
    rw [List.filter_eq_nil_iff]
    intro id hid
    have hs := hvalid id hid
    cases hdf : dsFind ds id with
    | none => rw [hdf] at hs; cases hs
    | some s => simp
  have hex : exMapM (fun id => (peakMax ((dsFind ds id).getD [])).map (fun p => (id, p))) b
      = .ok (b.map (fun id => (id, assignedPeak ds id))) := by
    refine exMapM_eq_map _ _ b ?_
    intro id hid
    obtain ⟨s, hs⟩ := Option.isSome_iff_exists.mp (hvalid id hid)
    have hsne : s ≠ [] := dsFind_good ds hgood id s hs
    cases s with
    | nil => exact absurd rfl hsne
    | cons x xs =>
      rw [hs]
      simp only [Option.getD_some]
      have hap : assignedPeak ds id = xs.foldl max x := by
        unfold assignedPeak
        rw [hs]
      rw [hap]
      rfl
  unfold batchAssign
  rw [hf1, hf2, hex]
  dsimp only
  rw [List.map_nil, List.append_nil]

theorem chunkedAssign_all_valid (ds : Dataset) (step : Nat) (ids : List Int)
    (hstep : 0 < step) (hvalid : ∀ id ∈ ids, (dsFind ds id).isSome)
    (hgood : ∀ p ∈ ds, p.2 ≠ []) :
    chunkedAssign ds step ids = .ok (ids.map (fun id => (id, assignedPeak ds id))) := by
  have hchunks : pyChunks step ids = .ok (chunkList step ids.length ids) := by
    unfold pyChunks
    rw [if_neg (Nat.pos_iff_ne_zero.mp hstep)]
  have hflat : (chunkList step ids.length ids).flatten = ids :=
    chunkList_flatten step hstep ids.length ids le_rfl
  have hex : exMapM (batchAssign ds) (chunkList step ids.length ids)
      = .ok ((chunkList step ids.length ids).map
          (fun b => b.map (fun id => (id, assignedPeak ds id)))) := by
    refine exMapM_eq_map _ _ _ ?_
    intro b hb
    refine batchAssign_all_valid ds b ?_ hgood
    intro id hid
    refine hvalid id ?_
    rw [← hflat]
    exact List.mem_flatten.mpr ⟨b, hb, hid⟩
  unfold chunkedAssign
  rw [hchunks]
  show (match exMapM (batchAssign ds) (chunkList step ids.length ids) with
    | Except.error e => (Except.error e : Except String (List (Int × ℚ)))
    | Except.ok ls => Except.ok ls.flatten) = _
  rw [hex]
  dsimp only
  rw [← List.map_flatten, hflat]

/-- C1 (amended): every append operation rewrites the table in full.  The
ensemble and return-period appends iterate the sorted unique id list and
write each id's rows together, so their output is the input grouped by
ascending stream id with input order kept inside each group, and a table
already sorted by stream id is rewritten row for row.  The single-run
peak-flow append additionally writes each batch's valid ids before its
missing ids, so for it the sorted-table row-for-row correspondence holds
when every table id is present in the dataset (an absent id's zero-flow
rows are deferred behind the batch's valid rows). -/
theorem claim1_amended_row_order (table : List SIRow)
    (hsorted : (sidColumn table).Sorted (· ≤ ·)) :
    (∀ (mx my : Method) (fb sb : List (List (List ℚ))),
      ensembleRows mx my fb sb table = flowBroadcast table
        (fun id => ensembleVal mx my
          (fb.getD ((npUnique (sidColumn table)).indexOf id) [])
          (sb.getD ((npUnique (sidColumn table)).indexOf id) []))) ∧
    (∀ (comids : List Int) (dat : List ℚ),
      rpRows comids dat table = flowBroadcast table (rpValueOf comids dat)) ∧
    (∀ valueOf : Int → ℚ, flowBroadcast table valueOf
      = table.map (fun r => appendFlow6 r (valueOf (sidOf r)))) ∧
    (∀ (valueOf : Int → ℚ) (i : Nat), i < table.length →
      (flowBroadcast table valueOf).getD i []
        = appendFlow6 (table.getD i []) (valueOf (sidOf (table.getD i [])))) ∧
    (∀ (ds : Dataset) (step : Nat), 0 < step → table ≠ [] →
      (∀ id ∈ sidColumn table, (dsFind ds id).isSome) →
      (∀ p ∈ ds, p.2 ≠ []) →
      rapidRows ds step table
        = .ok (table.map (fun r => appendFlow6 r (assignedPeak ds (sidOf r))))) := by
  have hmap : ∀ valueOf : Int → ℚ, flowBroadcast table valueOf
      = table.map (fun r => appendFlow6 r (valueOf (sidOf r))) := by
    intro valueOf
    unfold flowBroadcast matchRows
    have hinner : ∀ id ∈ npUnique (sidColumn table),
        (table.filter (fun r => sidOf r == id)).map
          (fun r => appendFlow6 r (valueOf id))
        = (table.filter (fun r => sidOf r == id)).map
          (fun r => appendFlow6 r (valueOf (sidOf r))) := by
      intro id _
      apply List.map_congr_left
      intro r hr
      have : sidOf r = id := by
        have := (List.mem_filter.mp hr).2
        simpa using this
      rw [this]
    rw [flatMap_congr_mem _ hinner, ← List.map_flatMap]
    rw [flatMap_filter_sorted (npUnique (sidColumn table)) table
      (npUnique_sorted_lt _)
      (fun r hr => (npUnique_mem _ _).mpr (List.mem_map_of_mem sidOf hr))
      hsorted]
  refine ⟨?_, fun comids dat => rfl, hmap, ?_, ?_⟩
  · intro mx my fb sb
    unfold ensembleRows
    rw [enum_flatMap_indexOf (npUnique (sidColumn table))
      (npUnique_nodup (sidColumn table))]
    rfl
  · intro valueOf i hi
    rw [hmap valueOf]
    rw [List.getD_eq_getElem?_getD, List.getElem?_map,
      List.getElem?_eq_getElem hi]
    rw [List.getD_eq_getElem?_getD, List.getElem?_eq_getElem hi]
    rfl
  · intro ds step hstep hne hvalid hgood
    have huniq : ¬ (npUnique (sidColumn table)).length = 0 := by
      intro hlen
      cases table with
      | nil => exact hne rfl
      | cons r t =>
        rw [List.length_eq_zero] at hlen
        have : sidOf r ∈ npUnique (sidColumn (r :: t)) :=
          (npUnique_mem _ _).mpr (List.mem_map_of_mem sidOf (List.mem_cons_self r t))
        rw [hlen] at this
        exact List.not_mem_nil _ this
    have hvu : ∀ id ∈ npUnique (sidColumn table), (dsFind ds id).isSome :=
      fun id h => hvalid id ((npUnique_mem _ _).mp h)
    have hchk := chunkedAssign_all_valid ds step (npUnique (sidColumn table))
      hstep hvu hgood
    unfold rapidRows
    rw [if_neg huniq, hchk]
    dsimp only
    have hrows : rowsOfAssign table ((npUnique (sidColumn table)).map
        (fun id => (id, assignedPeak ds id))) = flowBroadcast table (assignedPeak ds) := by
      unfold rowsOfAssign flowBroadcast
      rw [List.flatMap_map]
    rw [hrows, hmap (assignedPeak ds)]

/-- Witness for claim1_amended_row_order: a three-row table sorted by stream
id is rewritten row for row by the grouped broadcast, and by the single-run
operation when (as here) every table id is present in the dataset. -/
theorem claim1_amended_row_order_witness :
    (flowBroadcast [[0, 0, 0, 5, 1], [1, 0, 0, 5, 2], [2, 0, 0, 9, 1]]
        (fun id => (id : ℚ))
      = List.map (fun r => appendFlow6 r ((sidOf r : ℤ) : ℚ))
        [[0, 0, 0, 5, 1], [1, 0, 0, 5, 2], [2, 0, 0, 9, 1]]) ∧
    (rapidRows [((5 : Int), [(1 : ℚ), 2]), ((9 : Int), [(3 : ℚ)])] 1
        [[0, 0, 0, 5, 1], [1, 0, 0, 5, 2], [2, 0, 0, 9, 1]]
      = .ok (List.map (fun r => appendFlow6 r
          (assignedPeak [((5 : Int), [(1 : ℚ), 2]), ((9 : Int), [(3 : ℚ)])] (sidOf r)))
          [[0, 0, 0, 5, 1], [1, 0, 0, 5, 2], [2, 0, 0, 9, 1]])) :=
  ⟨(claim1_amended_row_order [[0, 0, 0, 5, 1], [1, 0, 0, 5, 2], [2, 0, 0, 9, 1]]
      (by decide)).2.2.1 (fun id => (id : ℚ)),
   (claim1_amended_row_order [[0, 0, 0, 5, 1], [1, 0, 0, 5, 2], [2, 0, 0, 9, 1]]
      (by decide)).2.2.2.2 [((5 : Int), [(1 : ℚ), 2]), ((9 : Int), [(3 : ℚ)])] 1
     (by decide) (by decide) (by decide) (by decide)⟩

/-- C9: the return-period lookup accepts the statistic name max_flow, reads
the return_period_2 array for it, and therefore produces exactly the table
that the name return_period_2 produces. -/
theorem claim9_max_flow_reads_rp2 (src : RPSource) (table : List SIRow) :
    selectRPData "max_flow" src = .ok src.rp2 ∧
    rpOpRows "max_flow" src table = rpOpRows "return_period_2" src table :=
  ⟨rfl, rfl⟩

end AutoRoute
